import Mathlib

/-!
Shallow embedding of the whatsapp-sheets-email-bot repository, covering
`sheets_write.py` (worksheet access, key lookup, upsert engine) and
`scripts/append_and_notify.py` (lead pipeline).  Cells are strings; an
empty cell is modelled as `""` (gspread returns `None`, which every use
site of the source collapses through Python truthiness, so `""` is an
observationally faithful model).  Records are Python dicts, modelled as
association lists with dict semantics (first-match lookup, in-place
update, insertion-order iteration).  Network failures of collaborators
are injected through explicit effect flags where the source has
`try/except` blocks around remote calls.
-/

namespace Bot

/-- A worksheet row: list of cell values; `""` models an empty cell. -/
abbrev Row := List String

/-- A worksheet: `rows` is 1-based via helper accessors; the first element
is the header row (row 1). -/
structure Worksheet where
  rows : List Row
deriving DecidableEq, Repr

/-- Runtime configuration mirroring the environment variables the source
reads.  Fields hold the raw environment values; `envv` models `_env`
(which strips the value). -/
structure Config where
  col_timestamp : String := "timestamp"
  col_name : String := "name"
  col_phone : String := "phone"
  col_email : String := "email"
  col_message : String := "message"
  col_source : String := "source"
  col_wamid : String := "wamid"
  col_status_email : String := "status_email"
  col_updated_at : String := "updated_at"
  immutable_cols : String := ""
  dedupe_by_wamid : String := "1"
deriving DecidableEq, Repr

/-- Python whitespace for `str.strip()`. -/
def isPyWS (c : Char) : Bool :=
  c == ' ' || c == '\t' || c == '\n' || c == '\r' || c == '\x0b' || c == '\x0c'

/-- Models Python `str.strip()`: drop leading and trailing whitespace.
Structurally recursive so that proofs can evaluate it. -/
def pyStrip (s : String) : String :=
  ⟨((s.data.dropWhile isPyWS).reverse.dropWhile isPyWS).reverse⟩

/-- ASCII lowercase of one character (the stored data is ASCII). -/
def pyLowerChar (c : Char) : Char :=
  if 'A' ≤ c ∧ c ≤ 'Z' then Char.ofNat (c.toNat + 32) else c

/-- Models Python `str.lower()` on ASCII data. -/
def pyLower (s : String) : String := ⟨s.data.map pyLowerChar⟩

/-- `strip` then `lower`, the normalization the source applies to field and
column names. -/
def norml (s : String) : String := pyLower (pyStrip s)

/-- Models Python `str.split(",")`. -/
def splitCommaAux : List Char → List Char → List (List Char)
  | acc, [] => [acc.reverse]
  | acc, c :: cs =>
    if c == ',' then acc.reverse :: splitCommaAux [] cs else splitCommaAux (c :: acc) cs

def pySplitComma (s : String) : List String :=
  (splitCommaAux [] s.data).map (fun l => ⟨l⟩)

/-- Models `_env`: environment read followed by `.strip()`. -/
def envv (s : String) : String := pyStrip s

/-- Models `_flag`: `str(value).strip().lower() in {"1","true","yes","on"}`. -/
def flagv (s : String) : Bool :=
  norml s == "1" || norml s == "true" || norml s == "yes" || norml s == "on"

/-- `_colnames()["wamid"]`: the configured key column name, lowercased. -/
def keyColName (cfg : Config) : String := pyLower (envv cfg.col_wamid)

/-- `_colnames()["timestamp"]`: the creation-timestamp column name. -/
def tsColName (cfg : Config) : String := pyLower (envv cfg.col_timestamp)

/-- `_colnames()["updated_at"]`: the last-updated column name. -/
def updColName (cfg : Config) : String := pyLower (envv cfg.col_updated_at)

/-- Read a cell, 1-based row and column; out-of-range or empty reads give `""`. -/
def cellVal (ws : Worksheet) (r c : Nat) : String :=
  (ws.rows.getD (r-1) []).getD (c-1) ""

/-- Write a cell in place, 1-based row and column (models `ws.update(a1, v)`). -/
def writeCell (ws : Worksheet) (r c : Nat) (v : String) : Worksheet :=
  ⟨ws.rows.set (r-1) ((ws.rows.getD (r-1) []).set (c-1) v)⟩

/-- Models `_headers`: stripped values of row 1. -/
def headersOf (ws : Worksheet) : List String :=
  (ws.rows.headD []).map (fun h => pyStrip h)

/-- Models `_header_index_map` lookup: lowercased non-empty header name to
zero-based column index; a duplicated name keeps the last occurrence, as a
Python dict comprehension does. -/
def headerIndex (ws : Worksheet) (name : String) : Option Nat :=
  ((((headersOf ws).enum).filter (fun p => p.2 != "" && pyLower p.2 == name)).getLast?).map (·.1)

/-- Cells of one row whose value equals `q` exactly, as `(row, col, value)`
triples, columns 1-based from `c`. -/
def rowFindCells (q : String) (r : Nat) : Nat → List String → List (Nat × Nat × String)
  | _, [] => []
  | c, v :: vs => (if v == q then [(r, c, v)] else []) ++ rowFindCells q r (c+1) vs

/-- Row-major accumulation of exact-value matches, rows 1-based from `r`. -/
def findallAux (q : String) : Nat → List Row → List (Nat × Nat × String)
  | _, [] => []
  | r, row :: rest => rowFindCells q r 1 row ++ findallAux q (r+1) rest

/-- Models `ws.findall(q)`: every cell whose value equals `q` exactly, in
row-major order, with 1-based coordinates and the cell value. -/
def findallCells (ws : Worksheet) (q : String) : List (Nat × Nat × String) :=
  findallAux q 1 ws.rows

/-- Models `ws.col_values(c)`: the values of column `c` (1-based), one per row. -/
def colValues (ws : Worksheet) (c : Nat) : List String :=
  ws.rows.map (fun row => row.getD (c-1) "")

/-- The fallback column scan of `_find_row_by_wamid`: first row number
(1-based, header row skipped) whose stripped value equals `w`. -/
def fallbackScan (w : String) : Nat → List String → Option Nat
  | _, [] => none
  | r, v :: vs => if r != 1 && pyStrip v == w then some r else fallbackScan w (r+1) vs

/-- Models `sheets_write._find_row_by_wamid`: strip the key, locate the key
column, try the `findall` fast path filtered to that column, then fall back
to scanning the key column skipping the header row. -/
def find_row_by_wamid (cfg : Config) (ws : Worksheet) (wamid0 : String) : Option Nat :=
  let wamid := pyStrip wamid0
  if wamid = "" then none
  else
    match headerIndex ws (keyColName cfg) with
    | none => none
    | some i =>
      let colIdx := i + 1
      match (findallCells ws wamid).find? (fun t => t.2.1 == colIdx && pyStrip t.2.2 == wamid) with
      | some t => some t.1
      | none => fallbackScan wamid 1 (colValues ws colIdx)

/-- A record: a Python dict from field name to value (`none` models `None`). -/
abbrev Record := List (String × Option String)

/-- Dict membership (`k in record`), exact key comparison. -/
def rhas (rec : Record) (k : String) : Bool := rec.any (fun p => p.1 == k)

/-- Dict lookup (`record.get(k)` distinguishing a missing key). -/
def rget (rec : Record) (k : String) : Option (Option String) :=
  (rec.find? (fun p => p.1 == k)).map (·.2)

/-- `record.get(k)` with the missing-key `None` collapsed into the value. -/
def flatget (rec : Record) (k : String) : Option String := (rget rec k).join

/-- Dict assignment `record[k] = v`: update in place when the key exists,
otherwise append at the end (CPython insertion-order semantics). -/
def rset (rec : Record) (k : String) (v : Option String) : Record :=
  if rhas rec k then rec.map (fun p => if p.1 == k then (k, v) else p)
  else rec ++ [(k, v)]

/-- A dict literal: sequential assignment starting from the empty dict. -/
def mkDict (l : List (String × Option String)) : Record :=
  l.foldl (fun d p => rset d p.1 p.2) []

/-- Python truthiness of an optional string: `None` and `""` are falsy. -/
def truthy (o : Option String) : Bool :=
  match o with
  | none => false
  | some s => s != ""

/-- Python `a or b` where the fallback is a plain string. -/
def pyOrS (a : Option String) (b : String) : String :=
  match a with
  | some s => if s != "" then s else b
  | none => b

/-- Result of `upsert_by_wamid`: `{"row": int, "created": bool}`. -/
structure UpsertRes where
  row : Nat
  created : Bool
deriving DecidableEq, Repr

/-- Models the `IMMUTABLE_COLS` parse: split the stripped environment value
on commas, keep stripped non-empty entries lowercased. -/
def immutableSet (cfg : Config) : List String :=
  (pySplitComma (envv cfg.immutable_cols)).filterMap
    (fun c => if pyStrip c = "" then none else some (norml c))

/-- The insert path's row construction: a full-width row of empty strings,
then each record field whose normalized name maps to a header column is
written at that column (later fields overwrite earlier ones). -/
def insStep (ws : Worksheet) (rv : Row) (p : String × Option String) : Row :=
  match headerIndex ws (norml p.1) with
  | some i => rv.set i (p.2.getD "")
  | none => rv

def buildInsertRow (ws : Worksheet) (record : Record) : Row :=
  record.foldl (insStep ws) (List.replicate (max 1 (headersOf ws).length) "")

/-- The update path's per-cell writes: every record field mapping to a known
column and not in the immutable set is written individually.  Column indices
are resolved against the header map built at entry, as in the source. -/
def updStep (cfg : Config) (ws : Worksheet) (rowNum : Nat)
    (w : Worksheet) (p : String × Option String) : Worksheet :=
  match headerIndex ws (norml p.1) with
  | none => w
  | some i =>
    if (immutableSet cfg).contains (norml p.1) then w
    else writeCell w rowNum (i+1) (p.2.getD "")

def applyUpdates (cfg : Config) (ws : Worksheet) (rowNum : Nat) (rec : Record) : Worksheet :=
  rec.foldl (updStep cfg ws rowNum) ws

/-- Key extraction of `upsert_by_wamid`: the literal field `"wamid"` when
present, otherwise the configured alias; the value stripped. -/
def wamidValOf (cfg : Config) (record : Record) : String :=
  pyStrip ((flatget record (if rhas record "wamid" then "wamid" else keyColName cfg)).getD "")

/-- Steps 1 and 2 of the update path: inject the existing creation
timestamp when `preserve_timestamp` is set and the cell is non-empty, then
auto-fill `updated_at` with the current time when the record does not carry
a non-empty value for it.  This is the in-place dict mutation the source
performs on the caller's record. -/
def prepTs (cfg : Config) (record : Record) (preserve_timestamp : Bool)
    (ws : Worksheet) (rowNum : Nat) : Record :=
  match headerIndex ws (tsColName cfg) with
  | some i =>
    if preserve_timestamp then
      (if cellVal ws rowNum (i+1) ≠ ""
       then rset record (tsColName cfg) (some (cellVal ws rowNum (i+1)))
       else record)
    else record
  | none => record

def prepUpd (cfg : Config) (now : String) (rec1 : Record) (ws : Worksheet) : Record :=
  match headerIndex ws (updColName cfg) with
  | some _ =>
    if ¬ rhas rec1 (updColName cfg) ∨ pyStrip ((flatget rec1 (updColName cfg)).getD "") = ""
    then rset rec1 (updColName cfg) (some now) else rec1
  | none => rec1

def updateRecordPrep (cfg : Config) (now : String) (record : Record)
    (preserve_timestamp : Bool) (ws : Worksheet) (rowNum : Nat) : Record :=
  prepUpd cfg now (prepTs cfg record preserve_timestamp ws rowNum) ws

/-- Models `sheets_write.upsert_by_wamid`.  `now` is the value
`_now_local_str()` would produce.  Returns the new worksheet, the record
as mutated by the call (the source mutates the caller's dict in place on
the update path), and `{"row", "created"}`.  The `ValueError` on a missing
key is the `Except.error` case. -/
def upsert_by_wamid (cfg : Config) (now : String) (record : Record)
    (preserve_timestamp : Bool) (ws : Worksheet) :
    Except String (Worksheet × Record × UpsertRes) :=
  if wamidValOf cfg record = "" then .error "upsert_by_wamid requer campo wamid no record"
  else
    match find_row_by_wamid cfg ws (wamidValOf cfg record) with
    | none =>
      let ws1 : Worksheet := ⟨ws.rows ++ [buildInsertRow ws record]⟩
      let rowNum :=
        match find_row_by_wamid cfg ws1 (wamidValOf cfg record) with
        | some r => r
        | none => ws1.rows.length
      .ok (ws1, record, ⟨rowNum, true⟩)
    | some rowNum =>
      let rec2 := updateRecordPrep cfg now record preserve_timestamp ws rowNum
      .ok (applyUpdates cfg ws rowNum rec2, rec2, ⟨rowNum, false⟩)

/-- Models `append_and_notify._header_map` lookup: stripped, lowercased
header name to 1-based column. -/
def headerMapCol (ws : Worksheet) (name : String) : Option Nat :=
  (headerIndex ws name).map (· + 1)

/-- Models `append_and_notify._find_row_by_wamid`: `findall` filtered to the
key column; no fallback, no strip of the cell, no header exclusion. -/
def find_row_by_wamid_pipe (cfg : Config) (ws : Worksheet) (wamid : String) : Option Nat :=
  if wamid = "" then none
  else
    match headerMapCol ws (keyColName cfg) with
    | none => none
    | some colIdx => ((findallCells ws wamid).find? (fun t => t.2.1 == colIdx)).map (·.1)

/-- First row number (rows numbered from `r0`) satisfying `p`, or `none`. -/
def firstRowFrom (p : Nat → Row → Bool) : Nat → List Row → Option Nat
  | _, [] => none
  | r, row :: rest => if p r row then some r else firstRowFrom p (r+1) rest

/-- Specification-side reading of the lookup fast path: the first 1-based
row whose cell in column `col` (1-based) equals `k` exactly, the header row
included. -/
def specFastRow (ws : Worksheet) (col : Nat) (k : String) : Option Nat :=
  firstRowFrom (fun _ row => row.getD (col-1) "" == k) 1 ws.rows

/-- Specification-side reading of the lookup fallback: the first non-header
1-based row whose stripped cell in column `col` equals `k`. -/
def specTrimRow (ws : Worksheet) (col : Nat) (k : String) : Option Nat :=
  firstRowFrom (fun r row => r != 1 && pyStrip (row.getD (col-1) "") == k) 1 ws.rows

/-- Models `_digits_only`: drop every non-digit character. -/
def digitsOnly (s : String) : String := String.mk (s.data.filter (·.isDigit))

/-- Character class of the regex local part `[A-Za-z0-9._%+-]`. -/
def isLocalChar (c : Char) : Bool :=
  c.isAlpha || c.isDigit || c == '.' || c == '_' || c == '%' || c == '+' || c == '-'

/-- Character class of the regex domain part `[A-Za-z0-9.-]`. -/
def isDomainChar (c : Char) : Bool :=
  c.isAlpha || c.isDigit || c == '.' || c == '-'

/-- One backtracking candidate for the regex tail `\.[A-Za-z]{2,}` inside the
maximal domain-class run `dom`: the greedy domain part takes `j` characters,
the next character must be a literal dot, then at least two letters (taken
greedily). -/
def trySplit (dom : List Char) (j : Nat) : Option (List Char) :=
  if (dom.drop j).headD ' ' == '.' then
    let tld := (dom.drop (j+1)).takeWhile (·.isAlpha)
    if 2 ≤ tld.length then some (dom.take j ++ '.' :: tld) else none
  else none

/-- Greedy backtracking over the domain length, longest candidate first, as
a backtracking regex engine resolves `[A-Za-z0-9.-]+\.[A-Za-z]{2,}`. -/
def searchSplit (dom : List Char) : Nat → Option (List Char)
  | 0 => none
  | j+1 =>
    match trySplit dom (j+1) with
    | some m => some m
    | none => searchSplit dom j

/-- Try the email regex anchored at the start of `cs`.  The local part is a
maximal run of its class (in this pattern a shorter run can never help,
because `@` is outside the class), then `@`, then the domain backtracking. -/
def emailMatchAt (cs : List Char) : Option (List Char) :=
  let loc := cs.takeWhile isLocalChar
  if loc.isEmpty then none
  else
    match cs.drop loc.length with
    | '@' :: rest2 =>
      let dom := rest2.takeWhile isDomainChar
      (searchSplit dom (dom.length - 1)).map (fun dpart => loc ++ '@' :: dpart)
    | _ => none

/-- Leftmost search: try the pattern at every start position in order, as
`re.search` does. -/
def emailSearchFrom : List Char → Option (List Char)
  | [] => none
  | c :: cs =>
    match emailMatchAt (c :: cs) with
    | some m => some m
    | none => emailSearchFrom cs

/-- Models the source's email heuristic:
`re.search(r"[A-Za-z0-9._%+-]+@[A-Za-z0-9.-]+\.[A-Za-z]{2,}", text)` with the
match lowercased. -/
def emailSearch (s : String) : Option String :=
  (emailSearchFrom s.data).map (fun m => pyLower (String.mk m))

/-- Nested webhook payload shape, mirroring the dictionary accesses of
`_extract_from_webhook`.  `none` models a missing key or a JSON `null`. -/
structure Profile where
  name : Option String := none
deriving DecidableEq, Repr

structure Contact where
  profile : Option Profile := none
deriving DecidableEq, Repr

structure MsgText where
  body : Option String := none
deriving DecidableEq, Repr

structure Msg where
  id : Option String := none
  sender : Option String := none
  text : Option MsgText := none
deriving DecidableEq, Repr

structure ChangeValue where
  messages : Option (List Msg) := none
  contacts : Option (List Contact) := none
deriving DecidableEq, Repr

structure Change where
  value : Option ChangeValue := none
deriving DecidableEq, Repr

structure Entry where
  changes : Option (List Change) := none
deriving DecidableEq, Repr

structure Payload where
  entry : Option (List Entry) := none
deriving DecidableEq, Repr

/-- The normalized lead dict produced by `_extract_from_webhook`. -/
structure Lead where
  wamid : Option String
  name : Option String
  phone : Option String
  email : Option String
  message : Option String
  source : Option String
deriving DecidableEq, Repr

/-- Models `_extract_from_webhook`.  `(x or [{}])[0]` tolerates a missing or
empty list, but `entry.get("changes", [{}])[0]` raises `IndexError` when
`changes` is present and empty; that raise is the `Except.error` case
(caught by the caller as `extract_failed`). -/
def extract_from_webhook (p : Payload) : Except String Lead :=
  let e1 : Entry :=
    match p.entry with
    | some (e :: _) => e
    | _ => {}
  match (e1.changes.getD [({} : Change)]).head? with
  | none => .error "IndexError: list index out of range"
  | some ch =>
    let value : ChangeValue := ch.value.getD {}
    let msg : Msg :=
      match value.messages with
      | some (m :: _) => m
      | _ => {}
    let contact : Contact :=
      match value.contacts with
      | some (c :: _) => c
      | _ => {}
    let wamid := pyStrip (msg.id.getD "")
    let phone := digitsOnly (msg.sender.getD "")
    let name := pyStrip ((contact.profile.getD {}).name.getD "")
    let text := pyStrip ((msg.text.getD {}).body.getD "")
    let email := emailSearch text
    .ok {
      wamid := if wamid = "" then none else some wamid
      name := if name = "" then none else some name
      phone := if phone = "" then none else some phone
      email := email.bind (fun s => if s = "" then none else some s)
      message := if text = "" then none else some text
      source := some "whatsapp" }

/-- Outcome of the notifier collaborator `send_lead_email`: returns `True`,
returns `False`, or raises. -/
inductive NotifyOutcome
  | sentOk
  | sentFalse
  | raised
deriving DecidableEq, Repr

/-- Injected failure behavior for the remote collaborators of one pipeline
run, one flag per `try/except`-guarded call site of the source. -/
structure Effects where
  dedupeOpenFails : Bool := false
  tsReadFails : Bool := false
  upsert1Raises : Bool := false
  upsert2Raises : Bool := false
  notify : NotifyOutcome := .sentOk
deriving DecidableEq, Repr

/-- The JSON-serializable result of `process_incoming`: either one of the
early error returns, or the final structured response. -/
inductive PipeResult
  | err (req : String) (errorKind : String) (detail : Option String)
  | done (ok : Bool) (status : String) (detail : String) (req : String)
      (wamid : Option String) (row : Option Nat) (email_status : String)
      (leadName leadPhone leadEmail leadSource : Option String)
deriving DecidableEq, Repr

/-- Observable collaborator interactions of one run: the records passed to
`_call_upsert`, in order, and whether `send_lead_email` was invoked. -/
structure Trace where
  upserts : List Record
  notified : Bool
deriving DecidableEq, Repr

/-- The dedupe block of `process_incoming` (step 2): returns
`(is_dup, row_idx, existing_ts)`.  Any raise inside the block is caught and
leaves the defaults in place; an open failure is injected via the effect
flag. -/
def dedupeStage (cfg : Config) (eff : Effects) (ws0 : Worksheet) (lead : Lead) :
    Bool × Option Nat × Option String :=
  if flagv cfg.dedupe_by_wamid && truthy lead.wamid then
    if eff.dedupeOpenFails then (false, none, none)
    else
      match find_row_by_wamid_pipe cfg ws0 (lead.wamid.getD "") with
      | none => (false, none, none)
      | some r =>
        let existingTs : Option String :=
          match headerMapCol ws0 (tsColName cfg) with
          | some c => if eff.tsReadFails then none else some (cellVal ws0 r c)
          | none => none
        (true, some r, existingTs)
  else (false, none, none)

/-- The `base_record` dict literal of step 3. -/
def provisionalRecord (cfg : Config) (now : String) (lead : Lead) (isDup : Bool) : Record :=
  mkDict [
    (envv cfg.col_timestamp, some now),
    (envv cfg.col_name, lead.name),
    (envv cfg.col_phone, lead.phone),
    (envv cfg.col_email, lead.email),
    (envv cfg.col_message, lead.message),
    (envv cfg.col_source, some (pyOrS lead.source "whatsapp")),
    (envv cfg.col_wamid, lead.wamid),
    (envv cfg.col_status_email, some (if isDup then "skipped" else "pending"))]

/-- The `merged_record` dict literal of step 5, built from the
possibly-mutated `base_record` as the source does. -/
def finalRecord (cfg : Config) (now : String) (existingTs : Option String)
    (base : Record) (emailStatus : String) : Record :=
  let tsFor := pyOrS existingTs (pyOrS (flatget base (envv cfg.col_timestamp)) now)
  mkDict [
    (envv cfg.col_timestamp, some (pyOrS (flatget base (envv cfg.col_timestamp)) now)),
    (envv cfg.col_name, flatget base (envv cfg.col_name)),
    (envv cfg.col_phone, flatget base (envv cfg.col_phone)),
    (envv cfg.col_email, flatget base (envv cfg.col_email)),
    (envv cfg.col_message, flatget base (envv cfg.col_message)),
    (envv cfg.col_source, flatget base (envv cfg.col_source)),
    (envv cfg.col_wamid, flatget base (envv cfg.col_wamid)),
    (envv cfg.col_status_email, some emailStatus),
    (envv cfg.col_updated_at, some tsFor)]

/-- Mapping of the notifier outcome to `status_email` (step 4); a raise is
caught and mapped to `"error"`. -/
def notifyStatus (o : NotifyOutcome) : String :=
  match o with
  | .sentOk => "sent"
  | .sentFalse => "error"
  | .raised => "error"

/-- `if not row_idx: row_idx = res.get("row")`: a missing or zero (falsy)
row index is replaced by the one the upsert reported. -/
def rowChoose (prev : Option Nat) (r : Nat) : Option Nat :=
  match prev with
  | none => some r
  | some x => if x = 0 then some r else some x

/-- `email_status` of step 4: `"skipped"` for a duplicate, otherwise the
notifier outcome mapping. -/
def emailStatusOf (eff : Effects) (isDup : Bool) : String :=
  if isDup then "skipped" else notifyStatus eff.notify

/-- Step 5's guarded final upsert: a raise (or the injected flag) is caught
and leaves worksheet and row index as they were. -/
def secondUpsert (cfg : Config) (eff : Effects) (now : String) (merged : Record)
    (ws1 : Worksheet) (rowIdx1 : Option Nat) : Worksheet × Option Nat :=
  if eff.upsert2Raises then (ws1, rowIdx1)
  else
    match upsert_by_wamid cfg now merged true ws1 with
    | .error _ => (ws1, rowIdx1)
    | .ok (ws2, _, res2) =>
      (ws2,
       match rowIdx1 with
       | none => some res2.row
       | some r => if r = 0 then some res2.row else some r)

/-- Steps 4-6 of `process_incoming`, given the dedupe triple `d` and the
outcome of the provisional upsert. -/
def afterUpsert1 (cfg : Config) (eff : Effects) (now req : String)
    (ws0 : Worksheet) (lead : Lead) (d : Bool × Option Nat × Option String)
    (r : Except String (Worksheet × Record × UpsertRes)) : PipeResult × Trace × Worksheet :=
  match r with
  | .error e => (.err req "sheets_upsert_failed" (some e),
      ⟨[provisionalRecord cfg now lead d.1], false⟩, ws0)
  | .ok (ws1, base1, res1) =>
    let emailStatus := emailStatusOf eff d.1
    let merged := finalRecord cfg now d.2.2 base1 emailStatus
    let s2 := secondUpsert cfg eff now merged ws1 (rowChoose d.2.1 res1.row)
    let status := if d.1 then "dedupe" else "ok"
    let okFlag := (status != "error") && (emailStatus == "sent" || emailStatus == "skipped")
    let detail := if okFlag then "Fluxo concluido" else "Fluxo com problemas"
    (.done okFlag status detail req lead.wamid s2.2 emailStatus
      lead.name lead.phone lead.email (some (pyOrS lead.source "whatsapp")),
     ⟨[provisionalRecord cfg now lead d.1, merged], !d.1⟩, s2.1)

/-- Steps 2-6 of `process_incoming`, after a successfully extracted and
validated lead. -/
def afterExtract (cfg : Config) (eff : Effects) (now req : String)
    (ws0 : Worksheet) (lead : Lead) : PipeResult × Trace × Worksheet :=
  let d := dedupeStage cfg eff ws0 lead
  let base := provisionalRecord cfg now lead d.1
  if eff.upsert1Raises then
    (.err req "sheets_upsert_failed" (some "store unavailable"), ⟨[base], false⟩, ws0)
  else
    afterUpsert1 cfg eff now req ws0 lead d (upsert_by_wamid cfg now base true ws0)

/-- Models `process_incoming`: extraction, the all-empty rejection, then the
dedupe / provisional upsert / notify / final upsert pipeline.  `now` models
`_now_local_str()` and `req` the generated request id. -/
def processIncoming (cfg : Config) (eff : Effects) (now req : String)
    (ws0 : Worksheet) (p : Payload) : PipeResult × Trace × Worksheet :=
  match extract_from_webhook p with
  | .error e => (.err req "extract_failed" (some e), ⟨[], false⟩, ws0)
  | .ok lead =>
    if truthy lead.wamid || truthy lead.phone || truthy lead.name then
      afterExtract cfg eff now req ws0 lead
    else
      (.err req "invalid_payload" none, ⟨[], false⟩, ws0)

/-- A concrete inbound webhook payload carrying only the message id `K1`,
used to exercise the pipeline on closed inputs. -/
def sampleMsg : Msg := { id := some "K1", sender := none, text := none }

def sampleChangeValue : ChangeValue := { messages := some [sampleMsg], contacts := none }

def sampleChange : Change := { value := some sampleChangeValue }

def sampleEntry : Entry := { changes := some [sampleChange] }

def samplePayload : Payload := { entry := some [sampleEntry] }

/-- The lead `_extract_from_webhook` produces for `samplePayload`. -/
def sampleLead : Lead :=
  { wamid := some "K1", name := none, phone := none, email := none,
    message := none, source := some "whatsapp" }

/-- A sheet whose data row already stores the key `K1` with creation
timestamp `T1`. -/
def sheetWithLead : Worksheet :=
  ⟨[["timestamp", "wamid", "updated_at"], ["T1", "K1", "U1"]]⟩

/-- A sheet with a header row only. -/
def sheetHeaderOnly : Worksheet :=
  ⟨[["timestamp", "wamid", "updated_at"]]⟩

/-- A sheet whose data row stores the key `K1` but a blank creation
timestamp. -/
def sheetBlankTs : Worksheet :=
  ⟨[["timestamp", "wamid", "updated_at"], ["", "K1", ""]]⟩

/-! ### Lemmas: characterizing the key lookup -/

theorem getD_ne_default {l : List String} {n : Nat} {d : String} (h : l.getD n d ≠ d) :
    n < l.length := by
  by_contra hc
  rw [List.getD_eq_getElem?_getD, List.getElem?_eq_none (Nat.le_of_not_lt hc)] at h
  exact h rfl

theorem rowFindCells_find?_none (q : String) (r col : Nat) :
    ∀ (c0 : Nat) (row : List String),
      (∀ j, j < row.length → c0 + j = col → row.getD j "" ≠ q) →
      (rowFindCells q r c0 row).find? (fun t => t.2.1 == col && pyStrip t.2.2 == q) = none := by
  intro c0 row
  induction row generalizing c0 with
  | nil => intro _; simp [rowFindCells]
  | cons v vs ih =>
    intro h
    simp only [rowFindCells]
    rw [List.find?_append]
    have hrest : (rowFindCells q r (c0+1) vs).find?
        (fun t => t.2.1 == col && pyStrip t.2.2 == q) = none := by
      refine ih (c0+1) (fun j hj hcj => ?_)
      have := h (j+1) (by simpa using Nat.succ_lt_succ hj) (by omega)
      simpa using this
    by_cases hv : v = q
    · have hc : c0 ≠ col := by
        intro hcc
        exact h 0 (by simp) (by omega) (by simpa using hv)
      have hb : (v == q) = true := beq_iff_eq.mpr hv
      rw [hb]
      simp only [if_true, List.singleton_append, List.find?_cons]
      have : ((r, c0, v).2.1 == col && pyStrip (r, c0, v).2.2 == q) = false := by
        simp [hc]
      rw [this, hrest]
      rfl
    · have hb : (v == q) = false := by simp [hv]
      rw [hb]
      simp only [Bool.false_eq_true, if_false, List.nil_append]
      rw [hrest]
      rfl

theorem rowFindCells_find?_some (q : String) (r col : Nat) (hq : pyStrip q = q) :
    ∀ (c0 j : Nat) (row : List String), j < row.length → c0 + j = col →
      row.getD j "" = q →
      (rowFindCells q r c0 row).find? (fun t => t.2.1 == col && pyStrip t.2.2 == q) =
        some (r, col, q) := by
  intro c0 j row
  induction row generalizing c0 j with
  | nil => intro h; simp at h
  | cons v vs ih =>
    intro hj hcj hv
    simp only [rowFindCells]
    rw [List.find?_append]
    cases j with
    | zero =>
      rw [List.getD_cons_zero] at hv
      have hcc : c0 = col := by omega
      subst hcc
      have hb : (v == q) = true := beq_iff_eq.mpr hv
      rw [hb]
      simp only [if_true, List.singleton_append, List.find?_cons]
      have hpr : ((r, c0, v).2.1 == c0 && pyStrip (r, c0, v).2.2 == q) = true := by
        subst hv
        simp [hq]
      rw [hpr]
      simp [hv]
    | succ j' =>
      rw [List.getD_cons_succ] at hv
      have hrest := ih (c0+1) j' (by simpa using hj) (by omega) hv
      have hc : c0 ≠ col := by omega
      by_cases hvq : v = q
      · have hb : (v == q) = true := beq_iff_eq.mpr hvq
        rw [hb]
        simp only [if_true, List.singleton_append, List.find?_cons]
        have : ((r, c0, v).2.1 == col && pyStrip (r, c0, v).2.2 == q) = false := by
          simp [hc]
        rw [this, hrest]
        rfl
      · have hb : (v == q) = false := by simp [hvq]
        rw [hb]
        simp only [Bool.false_eq_true, if_false, List.nil_append]
        rw [hrest]
        rfl

theorem findallAux_find? (q : String) (col : Nat) (hq : pyStrip q = q) (hne : q ≠ "")
    (hcol : 1 ≤ col) :
    ∀ (r0 : Nat) (rows : List Row),
      ((findallAux q r0 rows).find? (fun t => t.2.1 == col && pyStrip t.2.2 == q)).map (·.1) =
        firstRowFrom (fun _ row => row.getD (col-1) "" == q) r0 rows := by
  intro r0 rows
  induction rows generalizing r0 with
  | nil => simp [findallAux, firstRowFrom]
  | cons row rest ih =>
    simp only [findallAux, firstRowFrom]
    rw [List.find?_append]
    by_cases hrow : row.getD (col-1) "" = q
    · have hj : col - 1 < row.length := getD_ne_default (by rw [hrow]; exact hne)
      rw [rowFindCells_find?_some q r0 col hq 1 (col-1) row hj (by omega) hrow]
      have hb : (row.getD (col-1) "" == q) = true := beq_iff_eq.mpr hrow
      rw [if_pos hb]
      rfl
    · rw [rowFindCells_find?_none q r0 col 1 row (fun j hj hcj => by
        have hjq : j = col - 1 := by omega
        subst hjq
        exact hrow)]
      simp only [Option.none_or]
      have hb : (row.getD (col-1) "" == q) = false := beq_eq_false_iff_ne.mpr hrow
      rw [ih (r0+1), if_neg (by rw [hb]; simp)]

theorem fallbackScan_eq (w : String) (col : Nat) :
    ∀ (r0 : Nat) (rows : List Row),
      fallbackScan w r0 (rows.map (fun row => row.getD (col-1) "")) =
        firstRowFrom (fun r row => r != 1 && pyStrip (row.getD (col-1) "") == w) r0 rows := by
  intro r0 rows
  induction rows generalizing r0 with
  | nil => rfl
  | cons row rest ih =>
    simp only [List.map_cons, fallbackScan, firstRowFrom]
    rw [ih]

/-- Characterization of `sheets_write._find_row_by_wamid` when the key
column exists: first exact whole-cell match anywhere (header included),
otherwise first stripped match among non-header rows. -/
theorem find_row_eq (cfg : Config) (ws : Worksheet) (k : String) (i : Nat)
    (hq : pyStrip k = k) (hne : k ≠ "")
    (hcol : headerIndex ws (keyColName cfg) = some i) :
    find_row_by_wamid cfg ws k =
      (match specFastRow ws (i+1) k with
       | some r => some r
       | none => specTrimRow ws (i+1) k) := by
  unfold find_row_by_wamid
  simp only [hq, hcol, if_neg hne]
  have hmap := findallAux_find? k (i+1) hq hne (by omega) 1 ws.rows
  have hfb := fallbackScan_eq k (i+1) 1 ws.rows
  unfold specFastRow specTrimRow
  cases hfind : (findallCells ws k).find? (fun t => t.2.1 == i+1 && pyStrip t.2.2 == k) with
  | some t =>
    unfold findallCells at hfind
    rw [hfind] at hmap
    simp only [Option.map_some'] at hmap
    rw [← hmap]
  | none =>
    unfold findallCells at hfind
    rw [hfind] at hmap
    simp only [Option.map_none'] at hmap
    rw [← hmap]
    unfold colValues
    rw [hfb]

theorem firstRowFrom_some_spec (p : Nat → Row → Bool) :
    ∀ (r0 : Nat) (rows : List Row) (r : Nat), firstRowFrom p r0 rows = some r →
      r0 ≤ r ∧ r - r0 < rows.length ∧ p r (rows.getD (r - r0) []) = true := by
  intro r0 rows
  induction rows generalizing r0 with
  | nil => intro r h; simp [firstRowFrom] at h
  | cons row rest ih =>
    intro r h
    simp only [firstRowFrom] at h
    by_cases hp : p r0 row
    · rw [if_pos hp] at h
      cases h
      exact ⟨le_refl _, by simp, by simpa [Nat.sub_self] using hp⟩
    · rw [if_neg hp] at h
      obtain ⟨h1, h2, h3⟩ := ih (r0+1) r h
      refine ⟨by omega, by simp only [List.length_cons]; omega, ?_⟩
      have e : r - r0 = (r - (r0+1)) + 1 := by omega
      rw [e, List.getD_cons_succ]
      exact h3

theorem firstRowFrom_none_iff (p : Nat → Row → Bool) :
    ∀ (r0 : Nat) (rows : List Row), firstRowFrom p r0 rows = none ↔
      ∀ j, j < rows.length → p (r0 + j) (rows.getD j []) = false := by
  intro r0 rows
  induction rows generalizing r0 with
  | nil =>
    constructor
    · intro _ j hj
      simp at hj
    · intro _
      rfl
  | cons row rest ih =>
    simp only [firstRowFrom]
    by_cases hp : p r0 row
    · rw [if_pos hp]
      constructor
      · intro h; cases h
      · intro h
        have := h 0 (by simp)
        rw [Nat.add_zero, List.getD_cons_zero] at this
        rw [hp] at this
        cases this
    · rw [if_neg hp, ih (r0+1)]
      constructor
      · intro h j hj
        cases j with
        | zero =>
          rw [Nat.add_zero, List.getD_cons_zero]
          exact Bool.eq_false_iff.mpr hp
        | succ j' =>
          have := h j' (by simpa using hj)
          rw [List.getD_cons_succ]
          rw [show r0 + (j' + 1) = r0 + 1 + j' by omega]
          exact this
      · intro h j hj
        have := h (j+1) (by simpa using Nat.succ_lt_succ hj)
        rw [List.getD_cons_succ] at this
        rw [show r0 + 1 + j = r0 + (j + 1) by omega]
        exact this

theorem firstRowFrom_append (p : Nat → Row → Bool) :
    ∀ (r0 : Nat) (xs : List Row) (x : Row),
      firstRowFrom p r0 (xs ++ [x]) =
        (match firstRowFrom p r0 xs with
         | some r => some r
         | none => if p (r0 + xs.length) x then some (r0 + xs.length) else none) := by
  intro r0 xs
  induction xs generalizing r0 with
  | nil =>
    intro x
    rw [List.nil_append]
    simp [firstRowFrom]
  | cons y ys ih =>
    intro x
    rw [List.cons_append]
    simp only [firstRowFrom]
    by_cases hp : p r0 y
    · rw [if_pos hp, if_pos hp]
    · rw [if_neg hp, if_neg hp, ih (r0+1) x]
      rw [show r0 + 1 + ys.length = r0 + (y :: ys).length by simp only [List.length_cons]; omega]

/-! ### Lemmas: header map and single-cell writes -/

theorem headerIndex_spec (ws : Worksheet) (name : String) (i : Nat)
    (h : headerIndex ws name = some i) :
    i < (headersOf ws).length ∧ (headersOf ws).getD i "" ≠ "" ∧
      pyLower ((headersOf ws).getD i "") = name := by
  unfold headerIndex at h
  cases hl : ((headersOf ws).enum.filter (fun p => p.2 != "" && pyLower p.2 == name)).getLast? with
  | none => rw [hl] at h; cases h
  | some e =>
    rw [hl] at h
    simp only [Option.map_some'] at h
    obtain ⟨j, a⟩ := e
    simp only at h
    injection h with hji
    subst hji
    have hmem := List.mem_of_mem_getLast? hl
    obtain ⟨hmem2, hpred⟩ := List.mem_filter.mp hmem
    have hget : (headersOf ws)[j]? = some a := List.mk_mem_enum_iff_getElem?.mp hmem2
    have hlen : j < (headersOf ws).length := by
      by_contra hc
      rw [List.getElem?_eq_none (Nat.le_of_not_lt hc)] at hget
      cases hget
    have hgetD : (headersOf ws).getD j "" = a := by
      rw [List.getD_eq_getElem?_getD, hget]
      rfl
    simp only [Bool.and_eq_true, bne_iff_ne, beq_iff_eq] at hpred
    exact ⟨hlen, by rw [hgetD]; exact hpred.1, by rw [hgetD]; exact hpred.2⟩

theorem headerIndex_inj (ws : Worksheet) (n1 n2 : String) (i : Nat)
    (h1 : headerIndex ws n1 = some i) (h2 : headerIndex ws n2 = some i) : n1 = n2 := by
  obtain ⟨-, -, e1⟩ := headerIndex_spec ws n1 i h1
  obtain ⟨-, -, e2⟩ := headerIndex_spec ws n2 i h2
  rw [← e1, ← e2]

theorem headerIndex_rows_ne (ws : Worksheet) (name : String) (i : Nat)
    (h : headerIndex ws name = some i) : ws.rows ≠ [] := by
  intro he
  obtain ⟨hlen, -, -⟩ := headerIndex_spec ws name i h
  simp [headersOf, he] at hlen

theorem headersOf_append (ws : Worksheet) (x : Row) (h : ws.rows ≠ []) :
    headersOf ⟨ws.rows ++ [x]⟩ = headersOf ws := by
  unfold headersOf
  cases hr : ws.rows with
  | nil => exact absurd hr h
  | cons a l => simp [hr]

theorem headerIndex_append (ws : Worksheet) (x : Row) (name : String) (h : ws.rows ≠ []) :
    headerIndex ⟨ws.rows ++ [x]⟩ name = headerIndex ws name := by
  unfold headerIndex
  rw [headersOf_append ws x h]

theorem cellVal_append_lt (ws : Worksheet) (x : Row) (r c : Nat)
    (h : r - 1 < ws.rows.length) :
    cellVal ⟨ws.rows ++ [x]⟩ r c = cellVal ws r c := by
  unfold cellVal
  congr 1
  show (ws.rows ++ [x]).getD (r-1) [] = ws.rows.getD (r-1) []
  rw [List.getD_eq_getElem?_getD, List.getD_eq_getElem?_getD, List.getElem?_append_left h]

theorem cellVal_append_last (ws : Worksheet) (x : Row) (c : Nat) :
    cellVal ⟨ws.rows ++ [x]⟩ (ws.rows.length + 1) c = x.getD (c-1) "" := by
  unfold cellVal
  congr 1
  simp only [Nat.add_sub_cancel, List.getD_eq_getElem?_getD, List.getElem?_concat_length]
  rfl

theorem writeCell_length (ws : Worksheet) (r c : Nat) (v : String) :
    (writeCell ws r c v).rows.length = ws.rows.length := by
  simp [writeCell]

theorem writeCell_other_row (ws : Worksheet) (r c : Nat) (v : String) (r' : Nat)
    (h : r' - 1 ≠ r - 1) :
    (writeCell ws r c v).rows.getD (r' - 1) [] = ws.rows.getD (r' - 1) [] := by
  unfold writeCell
  rw [List.getD_eq_getElem?_getD, List.getD_eq_getElem?_getD,
    List.getElem?_set_ne (fun he => h he.symm)]
  rw [← List.getD_eq_getElem?_getD]

theorem cellVal_writeCell_other_row (ws : Worksheet) (r c : Nat) (v : String) (r' c' : Nat)
    (h : r' - 1 ≠ r - 1) :
    cellVal (writeCell ws r c v) r' c' = cellVal ws r' c' := by
  unfold cellVal
  rw [writeCell_other_row ws r c v r' h]

theorem cellVal_writeCell_other_col (ws : Worksheet) (r c : Nat) (v : String) (c' : Nat)
    (h : c' - 1 ≠ c - 1) :
    cellVal (writeCell ws r c v) r c' = cellVal ws r c' := by
  unfold cellVal writeCell
  by_cases hr : r - 1 < ws.rows.length
  · rw [List.getD_eq_getElem?_getD (l := ws.rows.set (r-1) _),
      List.getElem?_set_self (by simpa using hr)]
    simp only [Option.getD_some]
    rw [List.getD_eq_getElem?_getD, List.getD_eq_getElem?_getD,
      List.getElem?_set_ne (fun he => h he.symm)]
    rw [← List.getD_eq_getElem?_getD]
  · rw [List.set_eq_of_length_le (by omega)]

theorem cellVal_writeCell_self_or (ws : Worksheet) (r c : Nat) (v : String) :
    cellVal (writeCell ws r c v) r c = v ∨
      cellVal (writeCell ws r c v) r c = cellVal ws r c := by
  unfold cellVal writeCell
  by_cases hr : r - 1 < ws.rows.length
  · rw [List.getD_eq_getElem?_getD (l := ws.rows.set (r-1) _),
      List.getElem?_set_self (by simpa using hr)]
    simp only [Option.getD_some]
    by_cases hc : c - 1 < (ws.rows.getD (r-1) []).length
    · left
      rw [List.getD_eq_getElem?_getD, List.getElem?_set_self (by simpa using hc)]
      rfl
    · right
      rw [List.set_eq_of_length_le (Nat.le_of_not_lt hc)]
  · right
    rw [List.set_eq_of_length_le (Nat.le_of_not_lt hr)]

theorem cellVal_writeCell_self (ws : Worksheet) (r c : Nat) (v : String)
    (hr : r - 1 < ws.rows.length) (hc : c - 1 < (ws.rows.getD (r-1) []).length) :
    cellVal (writeCell ws r c v) r c = v := by
  unfold cellVal writeCell
  rw [List.getD_eq_getElem?_getD (l := ws.rows.set (r-1) _),
    List.getElem?_set_self (by simpa using hr)]
  simp only [Option.getD_some]
  rw [List.getD_eq_getElem?_getD, List.getElem?_set_self (by simpa using hc)]
  rfl

/-! ### Claim C4 -/

/-- **C4, counterexample.**  The claim states that `_find_row_by_wamid`
always excludes the header row (row 1) from matching.  On the worksheet
whose header names the key column `"wamid"` and whose only data row holds
the key `"wamid.X"`, searching for the key string `"wamid"` returns row 1 —
the header row itself — through the `findall` fast path, although no
non-header row matches: the fast path has no header exclusion (only the
fallback column scan skips row 1). -/
theorem findRow_header_match_counterexample :
    find_row_by_wamid {} ⟨[["wamid"], ["wamid.X"]]⟩ "wamid" = some 1 ∧
      (⟨[["wamid"], ["wamid.X"]]⟩ : Worksheet).rows.length = 2 ∧
      pyStrip (cellVal ⟨[["wamid"], ["wamid.X"]]⟩ 2 1) ≠ "wamid" := by
  refine ⟨rfl, rfl, ?_⟩
  decide

/-- **C4 (amended).**  For a non-empty stripped key `k` and a worksheet
whose header contains the configured key column (0-based index `i`),
`_find_row_by_wamid` scans only that column and returns: the first row
(header included) whose cell equals `k` exactly, or, failing any exact
match, the first non-header row whose stripped cell equals `k`; `none`
otherwise.  Consequently any returned row matches `k` in the key column
(so a key appearing only inside another column is never matched), and the
header row can only be returned when its own key-column cell is exactly
`k` — the claim's unconditional header exclusion does not hold. -/
theorem findRow_key_column_spec (cfg : Config) (ws : Worksheet) (k : String) (i : Nat)
    (hq : pyStrip k = k) (hne : k ≠ "")
    (hcol : headerIndex ws (keyColName cfg) = some i) :
    (find_row_by_wamid cfg ws k =
      (match specFastRow ws (i+1) k with
       | some r => some r
       | none => specTrimRow ws (i+1) k)) ∧
    (∀ r, find_row_by_wamid cfg ws k = some r →
      pyStrip (cellVal ws r (i+1)) = k ∧ (r = 1 → cellVal ws 1 (i+1) = k)) := by
  have hchar := find_row_eq cfg ws k i hq hne hcol
  refine ⟨hchar, fun r hr => ?_⟩
  rw [hchar] at hr
  cases hfast : specFastRow ws (i+1) k with
  | some rf =>
    rw [hfast] at hr
    simp only at hr
    cases hr
    obtain ⟨h1, h2, h3⟩ := firstRowFrom_some_spec _ 1 ws.rows r hfast
    have hcell : cellVal ws r (i+1) = k := by
      unfold cellVal
      have := beq_iff_eq.mp h3
      simpa [Nat.add_sub_cancel] using this
    exact ⟨by rw [hcell, hq], fun hr1 => hr1 ▸ hcell⟩
  | none =>
    rw [hfast] at hr
    simp only at hr
    obtain ⟨h1, h2, h3⟩ := firstRowFrom_some_spec _ 1 ws.rows r hr
    simp only [Bool.and_eq_true, bne_iff_ne, beq_iff_eq] at h3
    have hcell : pyStrip (cellVal ws r (i+1)) = k := by
      unfold cellVal
      simpa [Nat.add_sub_cancel] using h3.2
    exact ⟨hcell, fun h1r => absurd h1r h3.1⟩

/-- Witness for C4 (amended): the characterization applied to a concrete
worksheet in which the key also occurs inside a message-body cell. -/
theorem findRow_key_column_spec_witness :
    find_row_by_wamid {} ⟨[["wamid", "message"], ["x", "see wamid.A1"], ["wamid.A1", "hi"]]⟩
        "wamid.A1" =
      (match specFastRow ⟨[["wamid", "message"], ["x", "see wamid.A1"], ["wamid.A1", "hi"]]⟩ 1
          "wamid.A1" with
       | some r => some r
       | none => specTrimRow ⟨[["wamid", "message"], ["x", "see wamid.A1"], ["wamid.A1", "hi"]]⟩ 1
          "wamid.A1") :=
  (findRow_key_column_spec {} ⟨[["wamid", "message"], ["x", "see wamid.A1"], ["wamid.A1", "hi"]]⟩
    "wamid.A1" 0 (by decide) (by decide) (by rfl)).1

/-! ### Lemmas: the update path -/

theorem writeCell_row_len (w : Worksheet) (r c : Nat) (v : String) (r' : Nat) :
    ((writeCell w r c v).rows.getD (r' - 1) []).length = (w.rows.getD (r' - 1) []).length := by
  by_cases h : r' - 1 = r - 1
  · rw [h]
    unfold writeCell
    by_cases hr : r - 1 < w.rows.length
    · rw [List.getD_eq_getElem?_getD (l := w.rows.set (r-1) _),
        List.getElem?_set_self (by simpa using hr)]
      simp [List.getD_eq_getElem?_getD]
    · rw [List.set_eq_of_length_le (Nat.le_of_not_lt hr)]
  · rw [writeCell_other_row w r c v r' h]

theorem updStep_none (cfg : Config) (ws : Worksheet) (rowNum : Nat)
    (w : Worksheet) (p : String × Option String)
    (hh : headerIndex ws (norml p.1) = none) :
    updStep cfg ws rowNum w p = w := by
  unfold updStep
  rw [hh]

theorem updStep_imm (cfg : Config) (ws : Worksheet) (rowNum : Nat)
    (w : Worksheet) (p : String × Option String) (i : Nat)
    (hh : headerIndex ws (norml p.1) = some i)
    (himm : (immutableSet cfg).contains (norml p.1) = true) :
    updStep cfg ws rowNum w p = w := by
  unfold updStep
  rw [hh]
  exact if_pos himm

theorem updStep_write (cfg : Config) (ws : Worksheet) (rowNum : Nat)
    (w : Worksheet) (p : String × Option String) (i : Nat)
    (hh : headerIndex ws (norml p.1) = some i)
    (himm : ¬ (immutableSet cfg).contains (norml p.1) = true) :
    updStep cfg ws rowNum w p = writeCell w rowNum (i+1) (p.2.getD "") := by
  unfold updStep
  rw [hh]
  exact if_neg himm

/-- The record value written last into column `j` (0-based) by the update
path: the last record field normalizing to a known non-immutable column
name mapped to `j`. -/
def lastWriteFor (cfg : Config) (ws : Worksheet) (rec : Record) (j : Nat) :
    Option (Option String) :=
  (rec.reverse.find? (fun p =>
    headerIndex ws (norml p.1) == some j &&
      !(immutableSet cfg).contains (norml p.1))).map (·.2)

theorem updStep_cases (cfg : Config) (ws : Worksheet) (rowNum : Nat)
    (w : Worksheet) (p : String × Option String) :
    updStep cfg ws rowNum w p = w ∨
      ∃ i, headerIndex ws (norml p.1) = some i ∧
        ¬ (immutableSet cfg).contains (norml p.1) = true ∧
        updStep cfg ws rowNum w p = writeCell w rowNum (i+1) (p.2.getD "") := by
  cases hh : headerIndex ws (norml p.1) with
  | none => exact Or.inl (updStep_none cfg ws rowNum w p hh)
  | some i =>
    by_cases himm : (immutableSet cfg).contains (norml p.1)
    · exact Or.inl (updStep_imm cfg ws rowNum w p i hh himm)
    · exact Or.inr ⟨i, rfl, himm, updStep_write cfg ws rowNum w p i hh himm⟩

theorem updsFold_other_row (cfg : Config) (ws : Worksheet) (rowNum : Nat) (r' : Nat)
    (h : r' - 1 ≠ rowNum - 1) :
    ∀ (rec : Record) (w : Worksheet),
      ((rec.foldl (updStep cfg ws rowNum) w).rows.getD (r'-1) []) =
        w.rows.getD (r'-1) [] := by
  intro rec
  induction rec with
  | nil => intro w; rfl
  | cons p rest ih =>
    intro w
    simp only [List.foldl_cons]
    rw [ih]
    rcases updStep_cases cfg ws rowNum w p with he | ⟨i, _, _, he⟩
    · rw [he]
    · rw [he]
      exact writeCell_other_row w rowNum (i+1) _ r' h

theorem updsFold_length (cfg : Config) (ws : Worksheet) (rowNum : Nat) :
    ∀ (rec : Record) (w : Worksheet),
      (rec.foldl (updStep cfg ws rowNum) w).rows.length = w.rows.length := by
  intro rec
  induction rec with
  | nil => intro w; rfl
  | cons p rest ih =>
    intro w
    simp only [List.foldl_cons]
    rw [ih]
    rcases updStep_cases cfg ws rowNum w p with he | ⟨i, _, _, he⟩
    · rw [he]
    · rw [he]
      exact writeCell_length w rowNum (i+1) _

theorem updsFold_row_len (cfg : Config) (ws : Worksheet) (rowNum : Nat) (r' : Nat) :
    ∀ (rec : Record) (w : Worksheet),
      ((rec.foldl (updStep cfg ws rowNum) w).rows.getD (r'-1) []).length =
        (w.rows.getD (r'-1) []).length := by
  intro rec
  induction rec with
  | nil => intro w; rfl
  | cons p rest ih =>
    intro w
    simp only [List.foldl_cons]
    rw [ih]
    rcases updStep_cases cfg ws rowNum w p with he | ⟨i, _, _, he⟩
    · rw [he]
    · rw [he]
      exact writeCell_row_len w rowNum (i+1) _ r'

theorem updsFold_col_frame (cfg : Config) (ws : Worksheet) (rowNum : Nat) (j : Nat)
    (target : String) :
    ∀ (rec : Record) (w : Worksheet),
      (∀ p, p ∈ rec → headerIndex ws (norml p.1) = some j →
        (immutableSet cfg).contains (norml p.1) = true ∨ p.2.getD "" = target) →
      cellVal w rowNum (j+1) = target →
      cellVal (rec.foldl (updStep cfg ws rowNum) w) rowNum (j+1) = target := by
  intro rec
  induction rec with
  | nil => intro w _ hw; exact hw
  | cons p rest ih =>
    intro w hall hw
    simp only [List.foldl_cons]
    refine ih _ (fun p2 hp2 => hall p2 (List.mem_cons_of_mem p hp2)) ?_
    cases hh : headerIndex ws (norml p.1) with
    | none => rw [updStep_none cfg ws rowNum w p hh]; exact hw
    | some i =>
      by_cases himm : (immutableSet cfg).contains (norml p.1)
      · rw [updStep_imm cfg ws rowNum w p i hh himm]
        exact hw
      · rw [updStep_write cfg ws rowNum w p i hh himm]
        by_cases hij : i = j
        · subst hij
          rcases hall p (List.mem_cons_self p rest) hh with hc | hc
          · exact absurd hc himm
          · rcases cellVal_writeCell_self_or w rowNum (i+1) (p.2.getD "") with he | he
            · rw [he, hc]
            · rw [he, hw]
        · rw [cellVal_writeCell_other_col w rowNum (i+1) _ (j+1) (by omega)]
          exact hw

theorem lastWriteFor_cons (cfg : Config) (ws : Worksheet) (j : Nat)
    (p : String × Option String) (rest : Record) :
    lastWriteFor cfg ws (p :: rest) j =
      (lastWriteFor cfg ws rest j).or
        (if (headerIndex ws (norml p.1) == some j &&
            !(immutableSet cfg).contains (norml p.1)) = true
         then some p.2 else none) := by
  unfold lastWriteFor
  rw [List.reverse_cons, List.find?_append]
  cases hfr : rest.reverse.find? (fun p =>
      headerIndex ws (norml p.1) == some j &&
        !(immutableSet cfg).contains (norml p.1)) with
  | some e => simp
  | none =>
    simp only [Option.map_none', Option.none_or]
    by_cases hp : (headerIndex ws (norml p.1) == some j &&
        !(immutableSet cfg).contains (norml p.1)) = true
    · rw [if_pos hp]
      have hone : List.find? (fun p =>
          headerIndex ws (norml p.1) == some j &&
            !(immutableSet cfg).contains (norml p.1)) [p] = some p := by
        simp only [List.find?]
        rw [hp]
      rw [hone]
      rfl
    · rw [if_neg hp]
      simp only [List.find?]
      rw [Bool.not_eq_true] at hp
      rw [hp]
      rfl

theorem updsFold_col_last (cfg : Config) (ws : Worksheet) (rowNum : Nat) (j : Nat) :
    ∀ (rec : Record) (w : Worksheet),
      rowNum - 1 < w.rows.length → j < (w.rows.getD (rowNum-1) []).length →
      (∀ v, lastWriteFor cfg ws rec j = some v →
        cellVal (rec.foldl (updStep cfg ws rowNum) w) rowNum (j+1) = v.getD "") ∧
      (lastWriteFor cfg ws rec j = none →
        cellVal (rec.foldl (updStep cfg ws rowNum) w) rowNum (j+1) =
          cellVal w rowNum (j+1)) := by
  intro rec
  induction rec with
  | nil =>
    intro w _ _
    constructor
    · intro v hv
      simp [lastWriteFor] at hv
    · intro _
      rfl
  | cons p rest ih =>
    intro w hr hc
    have hb1 : rowNum - 1 < (updStep cfg ws rowNum w p).rows.length := by
      rcases updStep_cases cfg ws rowNum w p with he | ⟨i, _, _, he⟩
      · rw [he]; exact hr
      · rw [he, writeCell_length]; exact hr
    have hb2 : j < ((updStep cfg ws rowNum w p).rows.getD (rowNum-1) []).length := by
      rcases updStep_cases cfg ws rowNum w p with he | ⟨i, _, _, he⟩
      · rw [he]; exact hc
      · rw [he, writeCell_row_len]; exact hc
    constructor
    · intro v hv
      rw [lastWriteFor_cons] at hv
      simp only [List.foldl_cons]
      cases hrest : lastWriteFor cfg ws rest j with
      | some e =>
        rw [hrest] at hv
        rw [show (some e).or (if (headerIndex ws (norml p.1) == some j &&
            !(immutableSet cfg).contains (norml p.1)) = true
          then some p.2 else none) = some e from rfl] at hv
        injection hv with hev
        subst hev
        exact (ih _ hb1 hb2).1 _ hrest
      | none =>
        rw [hrest] at hv
        simp only [Option.none_or] at hv
        by_cases hp : (headerIndex ws (norml p.1) == some j &&
            !(immutableSet cfg).contains (norml p.1)) = true
        · rw [if_pos hp] at hv
          cases hv
          simp only [Bool.and_eq_true, beq_iff_eq, Bool.not_eq_eq_eq_not, Bool.not_true] at hp
          rw [(ih _ hb1 hb2).2 hrest]
          rw [updStep_write cfg ws rowNum w p j hp.1 (by rw [hp.2]; exact fun hcc => by cases hcc)]
          exact cellVal_writeCell_self w rowNum (j+1) (p.2.getD "")
            (by simpa using hr) (by simpa using hc)
        · rw [if_neg hp] at hv
          cases hv
    · intro hv
      rw [lastWriteFor_cons] at hv
      cases hrest : lastWriteFor cfg ws rest j with
      | some e =>
        rw [hrest] at hv
        rw [show (some e).or (if (headerIndex ws (norml p.1) == some j &&
            !(immutableSet cfg).contains (norml p.1)) = true
          then some p.2 else none) = some e from rfl] at hv
        cases hv
      | none =>
        rw [hrest] at hv
        simp only [Option.none_or] at hv
        have hp : ¬(headerIndex ws (norml p.1) == some j &&
            !(immutableSet cfg).contains (norml p.1)) = true := by
          intro hp
          rw [if_pos hp] at hv
          cases hv
        simp only [List.foldl_cons]
        rw [(ih _ hb1 hb2).2 hrest]
        simp only [Bool.and_eq_true, beq_iff_eq, Bool.not_eq_eq_eq_not, Bool.not_true,
          not_and] at hp
        cases hh : headerIndex ws (norml p.1) with
        | none => rw [updStep_none cfg ws rowNum w p hh]
        | some i =>
          by_cases himm : (immutableSet cfg).contains (norml p.1)
          · rw [updStep_imm cfg ws rowNum w p i hh himm]
          · rw [updStep_write cfg ws rowNum w p i hh himm]
            have hij : i ≠ j := by
              intro he
              subst he
              exact (hp hh) (Bool.eq_false_iff.mpr himm)
            exact cellVal_writeCell_other_col w rowNum (i+1) _ (j+1) (by omega)

/-! ### Lemmas: dict operations and the insert row -/

theorem two_le_length_of_mem_ne {α : Type _} {l : List α} {a b : α}
    (ha : a ∈ l) (hb : b ∈ l) (hne : a ≠ b) : 2 ≤ l.length := by
  cases l with
  | nil => cases ha
  | cons x xs =>
    cases xs with
    | nil =>
      simp only [List.mem_singleton] at ha hb
      exact absurd (ha.trans hb.symm) hne
    | cons y ys =>
      simp only [List.length_cons]
      omega

theorem rset_map_of_rhas (rec : Record) (k : String) (v : Option String)
    (h : rhas rec k = true) :
    rset rec k v = rec.map (fun p => if p.1 == k then (k, v) else p) := by
  unfold rset
  rw [if_pos h]

theorem rset_append_of_not_rhas (rec : Record) (k : String) (v : Option String)
    (h : ¬ rhas rec k = true) :
    rset rec k v = rec ++ [(k, v)] := by
  unfold rset
  rw [if_neg h]

theorem mem_rset (rec : Record) (k : String) (v : Option String)
    (p : String × Option String) (h : p ∈ rset rec k v) : p ∈ rec ∨ p = (k, v) := by
  unfold rset at h
  by_cases hh : rhas rec k
  · rw [if_pos hh] at h
    obtain ⟨q, hq, he⟩ := List.mem_map.mp h
    by_cases hk : q.1 == k
    · rw [if_pos hk] at he
      exact Or.inr he.symm
    · rw [if_neg hk] at he
      exact Or.inl (he ▸ hq)
  · rw [if_neg hh] at h
    rcases List.mem_append.mp h with h2 | h2
    · exact Or.inl h2
    · exact Or.inr (List.mem_singleton.mp h2)

theorem rget_rset_self (rec : Record) (k : String) (v : Option String) :
    rget (rset rec k v) k = some v := by
  unfold rset rget
  by_cases h : rhas rec k
  · rw [if_pos h]
    rw [List.find?_map]
    have hfun : ((fun p : String × Option String => p.1 == k) ∘
        (fun p : String × Option String => if p.1 == k then (k, v) else p)) =
        (fun p : String × Option String => p.1 == k) := by
      funext p
      by_cases hk : p.1 == k
      · simp only [Function.comp_apply, if_pos hk]
        simp [beq_iff_eq.mp hk]
      · simp only [Function.comp_apply, if_neg hk]
    rw [hfun]
    unfold rhas at h
    obtain ⟨p, hp, hpk⟩ := List.any_eq_true.mp h
    cases hf : rec.find? (fun p => p.1 == k) with
    | none =>
      rw [List.find?_eq_none] at hf
      exact absurd hpk (hf p hp)
    | some q =>
      have hq := List.find?_some hf
      simp only [Option.map_some', Option.map_map]
      simp only [Function.comp, if_pos hq]
  · rw [if_neg h]
    rw [List.find?_append]
    have hnone : rec.find? (fun p => p.1 == k) = none := by
      rw [List.find?_eq_none]
      intro p hp hpk
      unfold rhas at h
      exact h (List.any_eq_true.mpr ⟨p, hp, hpk⟩)
    rw [hnone]
    simp [List.find?]

theorem flatget_rset_self (rec : Record) (k : String) (v : Option String) :
    flatget (rset rec k v) k = v := by
  unfold flatget
  rw [rget_rset_self]
  rfl

theorem rhas_rset_self (rec : Record) (k : String) (v : Option String) :
    rhas (rset rec k v) k = true := by
  unfold rset
  by_cases h : rhas rec k
  · rw [if_pos h]
    unfold rhas at h ⊢
    obtain ⟨p, hp, hpk⟩ := List.any_eq_true.mp h
    refine List.any_eq_true.mpr ⟨(k, v), List.mem_map.mpr ⟨p, hp, by rw [if_pos hpk]⟩, by simp⟩
  · rw [if_neg h]
    unfold rhas
    refine List.any_eq_true.mpr ⟨(k, v), List.mem_append_right _ (by simp), by simp⟩

theorem rhas_rset_ne (rec : Record) (k : String) (v : Option String) (kq : String)
    (hne : kq ≠ k) : rhas (rset rec k v) kq = rhas rec kq := by
  unfold rset
  by_cases h : rhas rec k
  · rw [if_pos h]
    unfold rhas
    rw [List.any_map]
    congr 1
    funext p
    by_cases hk : p.1 == k
    · have hp1 : p.1 = k := beq_iff_eq.mp hk
      have h1 : (k == kq) = false := beq_eq_false_iff_ne.mpr (Ne.symm hne)
      simp only [Function.comp_apply, if_pos hk]
      simp only [h1]
      rw [hp1]
      simp [h1]
    · simp only [Function.comp_apply, if_neg hk]
  · rw [if_neg h]
    unfold rhas
    rw [List.any_append]
    have h1 : (k == kq) = false := beq_eq_false_iff_ne.mpr (Ne.symm hne)
    simp [List.any, h1]

theorem rget_rset_ne (rec : Record) (k : String) (v : Option String) (kq : String)
    (hne : kq ≠ k) : rget (rset rec k v) kq = rget rec kq := by
  unfold rset rget
  by_cases h : rhas rec k
  · rw [if_pos h]
    rw [List.find?_map]
    have hfun : ((fun p : String × Option String => p.1 == kq) ∘
        (fun p : String × Option String => if p.1 == k then (k, v) else p)) =
        (fun p : String × Option String => p.1 == kq) := by
      funext p
      by_cases hk : p.1 == k
      · simp only [Function.comp_apply, if_pos hk]
        have hp1 : p.1 = k := beq_iff_eq.mp hk
        have h1 : (k == kq) = false := beq_eq_false_iff_ne.mpr (Ne.symm hne)
        have h2 : (p.1 == kq) = false := by
          rw [hp1]
          exact h1
        simp [h1, h2]
      · simp only [Function.comp_apply, if_neg hk]
    rw [hfun]
    cases hf : rec.find? (fun p => p.1 == kq) with
    | none => rfl
    | some q =>
      have hq := List.find?_some hf
      have hqk : ¬ (q.1 == k) = true := by
        intro hc
        exact hne ((beq_iff_eq.mp hq).symm.trans (beq_iff_eq.mp hc))
      simp only [Option.map_some', Option.map_map]
      simp only [Function.comp, if_neg hqk]
  · rw [if_neg h]
    rw [List.find?_append]
    cases hf : rec.find? (fun p => p.1 == kq) with
    | some q => rfl
    | none =>
      have : (k == kq) = false := beq_eq_false_iff_ne.mpr (Ne.symm hne)
      simp [List.find?, this]

theorem flatget_rset_ne (rec : Record) (k : String) (v : Option String) (kq : String)
    (hne : kq ≠ k) : flatget (rset rec k v) kq = flatget rec kq := by
  unfold flatget
  rw [rget_rset_ne rec k v kq hne]

/-- The record value that ends up in column `i` (0-based) of the inserted
row: the last record field normalizing to a header name mapped to `i`. -/
def lastFieldFor (ws : Worksheet) (rec : Record) (i : Nat) : Option (Option String) :=
  (rec.reverse.find? (fun p => headerIndex ws (norml p.1) == some i)).map (·.2)

theorem insStep_none (ws : Worksheet) (rv : Row) (p : String × Option String)
    (hh : headerIndex ws (norml p.1) = none) : insStep ws rv p = rv := by
  unfold insStep
  rw [hh]

theorem insStep_some (ws : Worksheet) (rv : Row) (p : String × Option String) (i : Nat)
    (hh : headerIndex ws (norml p.1) = some i) : insStep ws rv p = rv.set i (p.2.getD "") := by
  unfold insStep
  rw [hh]

theorem insStep_length (ws : Worksheet) (rv : Row) (p : String × Option String) :
    (insStep ws rv p).length = rv.length := by
  cases hh : headerIndex ws (norml p.1) with
  | none => rw [insStep_none ws rv p hh]
  | some i => rw [insStep_some ws rv p i hh, List.length_set]

theorem insFold_length (ws : Worksheet) : ∀ (rec : Record) (rv : Row),
    (rec.foldl (insStep ws) rv).length = rv.length := by
  intro rec
  induction rec with
  | nil => intro rv; rfl
  | cons p rest ih =>
    intro rv
    simp only [List.foldl_cons]
    rw [ih, insStep_length]

theorem getD_set_self (l : List String) (i : Nat) (v : String) (h : i < l.length) :
    (l.set i v).getD i "" = v := by
  rw [List.getD_eq_getElem?_getD, List.getElem?_set_self (by simpa using h)]
  rfl

theorem getD_set_ne (l : List String) (i j : Nat) (v : String) (h : i ≠ j) :
    (l.set i v).getD j "" = l.getD j "" := by
  rw [List.getD_eq_getElem?_getD, List.getD_eq_getElem?_getD, List.getElem?_set_ne h]

theorem lastFieldFor_cons (ws : Worksheet) (i : Nat) (p : String × Option String)
    (rest : Record) :
    lastFieldFor ws (p :: rest) i =
      (lastFieldFor ws rest i).or
        (if (headerIndex ws (norml p.1) == some i) = true then some p.2 else none) := by
  unfold lastFieldFor
  rw [List.reverse_cons, List.find?_append]
  cases hfr : rest.reverse.find? (fun p => headerIndex ws (norml p.1) == some i) with
  | some e => simp
  | none =>
    simp only [Option.map_none', Option.none_or]
    by_cases hp : (headerIndex ws (norml p.1) == some i) = true
    · rw [if_pos hp]
      have hone : List.find? (fun p => headerIndex ws (norml p.1) == some i) [p] = some p := by
        simp only [List.find?]
        rw [hp]
      rw [hone]
      rfl
    · rw [if_neg hp]
      simp only [List.find?]
      rw [Bool.not_eq_true] at hp
      rw [hp]
      rfl

theorem insFold_getD (ws : Worksheet) (i : Nat) : ∀ (rec : Record) (rv : Row),
    i < rv.length →
    (∀ v, lastFieldFor ws rec i = some v →
      (rec.foldl (insStep ws) rv).getD i "" = v.getD "") ∧
    (lastFieldFor ws rec i = none →
      (rec.foldl (insStep ws) rv).getD i "" = rv.getD i "") := by
  intro rec
  induction rec with
  | nil =>
    intro rv _
    exact ⟨fun v hv => by simp [lastFieldFor] at hv, fun _ => rfl⟩
  | cons p rest ih =>
    intro rv hlen
    have hlen2 : i < (insStep ws rv p).length := by rw [insStep_length]; exact hlen
    constructor
    · intro v hv
      rw [lastFieldFor_cons] at hv
      simp only [List.foldl_cons]
      cases hrest : lastFieldFor ws rest i with
      | some e =>
        rw [hrest] at hv
        rw [show (some e).or (if (headerIndex ws (norml p.1) == some i) = true
            then some p.2 else none) = some e from rfl] at hv
        injection hv with hev
        subst hev
        exact (ih _ hlen2).1 _ hrest
      | none =>
        rw [hrest] at hv
        simp only [Option.none_or] at hv
        by_cases hp : (headerIndex ws (norml p.1) == some i) = true
        · rw [if_pos hp] at hv
          injection hv with hev
          subst hev
          rw [(ih _ hlen2).2 hrest]
          rw [insStep_some ws rv p i (beq_iff_eq.mp hp)]
          exact getD_set_self rv i _ hlen
        · rw [if_neg hp] at hv
          cases hv
    · intro hv
      rw [lastFieldFor_cons] at hv
      cases hrest : lastFieldFor ws rest i with
      | some e =>
        rw [hrest] at hv
        rw [show (some e).or (if (headerIndex ws (norml p.1) == some i) = true
            then some p.2 else none) = some e from rfl] at hv
        cases hv
      | none =>
        rw [hrest] at hv
        simp only [Option.none_or] at hv
        have hp : ¬(headerIndex ws (norml p.1) == some i) = true := by
          intro hp
          rw [if_pos hp] at hv
          cases hv
        simp only [List.foldl_cons]
        rw [(ih _ hlen2).2 hrest]
        cases hh : headerIndex ws (norml p.1) with
        | none => rw [insStep_none ws rv p hh]
        | some i2 =>
          rw [insStep_some ws rv p i2 hh]
          have hne : i2 ≠ i := fun he => hp (by rw [hh, he]; exact beq_self_eq_true _)
          exact getD_set_ne rv i2 i _ hne

theorem lastWriteFor_none_of_imm (cfg : Config) (ws : Worksheet) (rec : Record)
    (j : Nat) (name : String)
    (hname : headerIndex ws name = some j)
    (himm : (immutableSet cfg).contains name = true) :
    lastWriteFor cfg ws rec j = none := by
  unfold lastWriteFor
  rw [List.find?_eq_none.mpr]
  · rfl
  · intro p _ hp
    simp only [Bool.and_eq_true, beq_iff_eq, Bool.not_eq_eq_eq_not, Bool.not_true] at hp
    have := headerIndex_inj ws (norml p.1) name j hp.1 hname
    rw [this] at hp
    rw [himm] at hp
    cases hp.2

theorem lastWriteFor_eq_lastField (cfg : Config) (ws : Worksheet) (rec : Record)
    (j : Nat) (name : String)
    (hname : headerIndex ws name = some j)
    (himm : (immutableSet cfg).contains name = false) :
    lastWriteFor cfg ws rec j = lastFieldFor ws rec j := by
  unfold lastWriteFor lastFieldFor
  congr 2
  funext p
  by_cases hp : (headerIndex ws (norml p.1) == some j) = true
  · have := headerIndex_inj ws (norml p.1) name j (beq_iff_eq.mp hp) hname
    rw [hp, this, himm]
    rfl
  · rw [Bool.not_eq_true] at hp
    rw [hp]
    rfl

theorem lastWriteFor_rset_self (cfg : Config) (ws : Worksheet) (rec : Record)
    (j : Nat) (k : String) (v : Option String)
    (hstab : norml k = k)
    (hkj : headerIndex ws k = some j)
    (himm : (immutableSet cfg).contains k = false)
    (huniq : rhas rec k = true → ∀ p ∈ rec, norml p.1 = k → p.1 = k) :
    lastWriteFor cfg ws (rset rec k v) j = some v := by
  have hpredk : ∀ w : Option String,
      (headerIndex ws (norml (k, w).1) == some j &&
        !(immutableSet cfg).contains (norml (k, w).1)) = true := by
    intro w
    simp only
    rw [hstab, hkj, himm]
    simp
  unfold rset
  by_cases h : rhas rec k
  · rw [if_pos h]
    unfold lastWriteFor
    rw [← List.map_reverse, List.find?_map]
    have hfun : ((fun p : String × Option String =>
        headerIndex ws (norml p.1) == some j &&
          !(immutableSet cfg).contains (norml p.1)) ∘
        (fun p : String × Option String => if p.1 == k then (k, v) else p)) =
        (fun p : String × Option String =>
          headerIndex ws (norml p.1) == some j &&
            !(immutableSet cfg).contains (norml p.1)) := by
      funext x
      by_cases hx : x.1 == k
      · have hx1 : x.1 = k := beq_iff_eq.mp hx
        simp only [Function.comp_apply, if_pos hx]
        rw [hpredk v]
        rw [hx1]
        exact (hpredk x.2).symm
      · simp only [Function.comp_apply, if_neg hx]
    rw [hfun]
    have hsome : (rec.reverse.find? (fun p =>
        headerIndex ws (norml p.1) == some j &&
          !(immutableSet cfg).contains (norml p.1))).isSome = true := by
      rw [List.find?_isSome]
      unfold rhas at h
      obtain ⟨p, hp, hpk⟩ := List.any_eq_true.mp h
      refine ⟨p, List.mem_reverse.mpr hp, ?_⟩
      have hp1 : p.1 = k := beq_iff_eq.mp hpk
      rw [show p = (k, p.2) from by rw [← hp1]]
      exact hpredk p.2
    cases hf : rec.reverse.find? (fun p =>
        headerIndex ws (norml p.1) == some j &&
          !(immutableSet cfg).contains (norml p.1)) with
    | none => rw [hf] at hsome; cases hsome
    | some q =>
      have hqp := List.find?_some hf
      have hqm := List.mem_reverse.mp (List.mem_of_find?_eq_some hf)
      simp only [Bool.and_eq_true, beq_iff_eq] at hqp
      have hqk : norml q.1 = k := headerIndex_inj ws (norml q.1) k j hqp.1 hkj
      have hq1 : q.1 = k := huniq h q hqm hqk
      simp only [Option.map_some']
      rw [if_pos (beq_iff_eq.mpr hq1)]
  · rw [if_neg h]
    unfold lastWriteFor
    rw [List.reverse_append]
    simp only [List.reverse_cons, List.reverse_nil, List.nil_append, List.singleton_append]
    have hone : List.find? (fun p =>
        headerIndex ws (norml p.1) == some j &&
          !(immutableSet cfg).contains (norml p.1)) ((k, v) :: rec.reverse) = some (k, v) := by
      simp only [List.find?]
      rw [hpredk v]
    rw [hone]
    rfl

theorem lastWriteFor_rset_other (cfg : Config) (ws : Worksheet) (rec : Record)
    (j : Nat) (k : String) (v : Option String)
    (hne : ¬ headerIndex ws (norml k) = some j) :
    lastWriteFor cfg ws (rset rec k v) j = lastWriteFor cfg ws rec j := by
  have hpredk : ∀ w : Option String,
      (headerIndex ws (norml (k, w).1) == some j &&
        !(immutableSet cfg).contains (norml (k, w).1)) = false := by
    intro w
    simp only
    have : (headerIndex ws (norml k) == some j) = false := by
      rw [beq_eq_false_iff_ne]
      exact hne
    rw [this]
    rfl
  unfold rset
  by_cases h : rhas rec k
  · rw [if_pos h]
    unfold lastWriteFor
    rw [← List.map_reverse, List.find?_map]
    have hfun : ((fun p : String × Option String =>
        headerIndex ws (norml p.1) == some j &&
          !(immutableSet cfg).contains (norml p.1)) ∘
        (fun p : String × Option String => if p.1 == k then (k, v) else p)) =
        (fun p : String × Option String =>
          headerIndex ws (norml p.1) == some j &&
            !(immutableSet cfg).contains (norml p.1)) := by
      funext x
      by_cases hx : x.1 == k
      · have hx1 : x.1 = k := beq_iff_eq.mp hx
        simp only [Function.comp_apply, if_pos hx]
        rw [hpredk v]
        rw [hx1]
        exact (hpredk x.2).symm
      · simp only [Function.comp_apply, if_neg hx]
    rw [hfun]
    cases hf : rec.reverse.find? (fun p =>
        headerIndex ws (norml p.1) == some j &&
          !(immutableSet cfg).contains (norml p.1)) with
    | none => rfl
    | some q =>
      have hqp := List.find?_some hf
      simp only [Bool.and_eq_true, beq_iff_eq] at hqp
      have hqk : ¬ (q.1 == k) = true := by
        intro hc
        have : norml q.1 = norml k := by rw [beq_iff_eq.mp hc]
        rw [this] at hqp
        exact hne hqp.1
      simp only [Option.map_some']
      rw [if_neg hqk]
  · rw [if_neg h]
    unfold lastWriteFor
    rw [List.reverse_append]
    simp only [List.reverse_cons, List.reverse_nil, List.nil_append, List.singleton_append]
    have hcons : List.find? (fun p =>
        headerIndex ws (norml p.1) == some j &&
          !(immutableSet cfg).contains (norml p.1)) ((k, v) :: rec.reverse) =
        List.find? (fun p =>
          headerIndex ws (norml p.1) == some j &&
            !(immutableSet cfg).contains (norml p.1)) rec.reverse := by
      simp only [List.find?]
      rw [hpredk v]
    rw [hcons]

/-! ### Lemmas: the two upsert paths as equations -/

theorem getD_ne_default_poly {α : Type _} {l : List α} {n : Nat} {d : α}
    (h : l.getD n d ≠ d) : n < l.length := by
  by_contra hc
  rw [List.getD_eq_getElem?_getD, List.getElem?_eq_none (Nat.le_of_not_lt hc)] at h
  exact h rfl

theorem upsert_update_eq (cfg : Config) (now : String) (record : Record)
    (pt : Bool) (ws : Worksheet) (r : Nat)
    (hval_ne : wamidValOf cfg record ≠ "")
    (hfind : find_row_by_wamid cfg ws (wamidValOf cfg record) = some r) :
    upsert_by_wamid cfg now record pt ws =
      .ok (applyUpdates cfg ws r (updateRecordPrep cfg now record pt ws r),
           updateRecordPrep cfg now record pt ws r, ⟨r, false⟩) := by
  unfold upsert_by_wamid
  rw [if_neg hval_ne, hfind]

theorem upsert_insert_eq (cfg : Config) (now : String) (record : Record)
    (pt : Bool) (ws : Worksheet)
    (hval_ne : wamidValOf cfg record ≠ "")
    (hfind : find_row_by_wamid cfg ws (wamidValOf cfg record) = none) :
    upsert_by_wamid cfg now record pt ws =
      .ok (⟨ws.rows ++ [buildInsertRow ws record]⟩, record,
           ⟨(match find_row_by_wamid cfg ⟨ws.rows ++ [buildInsertRow ws record]⟩
                (wamidValOf cfg record) with
             | some r2 => r2
             | none => (ws.rows ++ [buildInsertRow ws record]).length), true⟩) := by
  unfold upsert_by_wamid
  rw [if_neg hval_ne, hfind]

/-! ### Claim C2 -/

/-- **C2.**  Creation-timestamp immutability: if the row keyed `K` (the row
the lookup locates) holds the non-blank creation timestamp `T`, then
upserting a record keyed `K` with `preserve_timestamp = true` and a single
supplied timestamp field carrying a value different from `T` leaves the
stored creation timestamp equal to `T`.  The hygiene hypotheses say the
configured timestamp and updated-at column names are strip/lower-stable,
as every value produced by `_env(...).lower()` is. -/
theorem upsert_preserves_creation_timestamp (cfg : Config) (now : String) (record : Record)
    (ws : Worksheet) (K : String) (r jt : Nat) (T S : String)
    (hts_stab : norml (tsColName cfg) = tsColName cfg)
    (hupd_stab : norml (updColName cfg) = updColName cfg)
    (hval : wamidValOf cfg record = K) (hK : K ≠ "")
    (hfind : find_row_by_wamid cfg ws K = some r)
    (hj : headerIndex ws (tsColName cfg) = some jt)
    (hT : cellVal ws r (jt+1) = T)
    (hTs : pyStrip T ≠ "")
    (hsup : (record.filter (fun p => norml p.1 == tsColName cfg)).map (fun p => p.2) = [some S])
    (hSne : S ≠ T) :
    ∀ out, upsert_by_wamid cfg now record true ws = .ok out →
      cellVal out.1 r (jt+1) = T := by
  intro out hout
  have hTne : T ≠ "" := fun he => hTs (by rw [he]; rfl)
  have hvne : wamidValOf cfg record ≠ "" := by rw [hval]; exact hK
  have hfind2 : find_row_by_wamid cfg ws (wamidValOf cfg record) = some r := by
    rw [hval]; exact hfind
  rw [upsert_update_eq cfg now record true ws r hvne hfind2] at hout
  injection hout with htriple
  subst htriple
  show cellVal (applyUpdates cfg ws r (updateRecordPrep cfg now record true ws r)) r (jt+1) = T
  have hprep_def : updateRecordPrep cfg now record true ws r =
      (match headerIndex ws (updColName cfg) with
       | some _ =>
         if ¬ rhas (rset record (tsColName cfg) (some T)) (updColName cfg) = true ∨
            pyStrip ((flatget (rset record (tsColName cfg) (some T)) (updColName cfg)).getD "") = ""
         then rset (rset record (tsColName cfg) (some T)) (updColName cfg) (some now)
         else rset record (tsColName cfg) (some T)
       | none => rset record (tsColName cfg) (some T)) := by
    unfold updateRecordPrep prepUpd prepTs
    simp only [hj, hT, if_true]
    rw [if_pos hTne]
  have hprep2 : updateRecordPrep cfg now record true ws r =
        rset record (tsColName cfg) (some T) ∨
      (updateRecordPrep cfg now record true ws r =
        rset (rset record (tsColName cfg) (some T)) (updColName cfg) (some now) ∧
       updColName cfg ≠ tsColName cfg) := by
    rw [hprep_def]
    cases hu : headerIndex ws (updColName cfg) with
    | none => exact Or.inl rfl
    | some ju =>
      by_cases hequl : updColName cfg = tsColName cfg
      · have hhasu : rhas (rset record (tsColName cfg) (some T)) (updColName cfg) = true := by
          rw [hequl]
          exact rhas_rset_self record (tsColName cfg) (some T)
        have hfgu : flatget (rset record (tsColName cfg) (some T)) (updColName cfg) = some T := by
          rw [hequl]
          exact flatget_rset_self record (tsColName cfg) (some T)
        refine Or.inl ?_
        show (if ¬ rhas (rset record (tsColName cfg) (some T)) (updColName cfg) = true ∨
            pyStrip ((flatget (rset record (tsColName cfg) (some T)) (updColName cfg)).getD "") = ""
          then rset (rset record (tsColName cfg) (some T)) (updColName cfg) (some now)
          else rset record (tsColName cfg) (some T)) = rset record (tsColName cfg) (some T)
        rw [if_neg]
        rintro (hc | hc)
        · exact hc hhasu
        · rw [hfgu] at hc
          exact hTs hc
      · by_cases hcond : ¬ rhas (rset record (tsColName cfg) (some T)) (updColName cfg) = true ∨
            pyStrip ((flatget (rset record (tsColName cfg) (some T)) (updColName cfg)).getD "") = ""
        · refine Or.inr ⟨?_, hequl⟩
          show (if ¬ rhas (rset record (tsColName cfg) (some T)) (updColName cfg) = true ∨
              pyStrip ((flatget (rset record (tsColName cfg) (some T)) (updColName cfg)).getD "") = ""
            then rset (rset record (tsColName cfg) (some T)) (updColName cfg) (some now)
            else rset record (tsColName cfg) (some T)) =
            rset (rset record (tsColName cfg) (some T)) (updColName cfg) (some now)
          rw [if_pos hcond]
        · refine Or.inl ?_
          show (if ¬ rhas (rset record (tsColName cfg) (some T)) (updColName cfg) = true ∨
              pyStrip ((flatget (rset record (tsColName cfg) (some T)) (updColName cfg)).getD "") = ""
            then rset (rset record (tsColName cfg) (some T)) (updColName cfg) (some now)
            else rset record (tsColName cfg) (some T)) = rset record (tsColName cfg) (some T)
          rw [if_neg hcond]
  have hrowne : ws.rows.getD (r-1) [] ≠ [] := by
    intro he
    apply hTne
    rw [← hT]
    unfold cellVal
    rw [he]
    rfl
  have hrowlt : r - 1 < ws.rows.length := getD_ne_default_poly hrowne
  have hcol0 : (ws.rows.getD (r-1) []).getD jt "" ≠ "" := by
    have : (ws.rows.getD (r-1) []).getD jt "" = T := by
      rw [← hT]
      unfold cellVal
      simp [Nat.add_sub_cancel]
    rw [this]
    exact hTne
  have hcollt : jt < (ws.rows.getD (r-1) []).length := getD_ne_default_poly hcol0
  show cellVal ((updateRecordPrep cfg now record true ws r).foldl (updStep cfg ws r) ws) r (jt+1) = T
  by_cases himm : (immutableSet cfg).contains (tsColName cfg)
  · have hlwn : lastWriteFor cfg ws (updateRecordPrep cfg now record true ws r) jt = none :=
      lastWriteFor_none_of_imm cfg ws _ jt (tsColName cfg) hj himm
    rw [(updsFold_col_last cfg ws r jt (updateRecordPrep cfg now record true ws r) ws
      hrowlt hcollt).2 hlwn]
    exact hT
  · have himmf : (immutableSet cfg).contains (tsColName cfg) = false :=
      Bool.eq_false_iff.mpr himm
    have huniq : rhas record (tsColName cfg) = true →
        ∀ p ∈ record, norml p.1 = tsColName cfg → p.1 = tsColName cfg := by
      intro hhas p hp hpn
      by_contra hpne
      obtain ⟨e, he, hek⟩ := List.any_eq_true.mp hhas
      have he1 : e.1 = tsColName cfg := beq_iff_eq.mp hek
      have hef : e ∈ record.filter (fun p => norml p.1 == tsColName cfg) :=
        List.mem_filter.mpr ⟨he, by rw [he1, hts_stab]; exact beq_self_eq_true _⟩
      have hpf : p ∈ record.filter (fun p => norml p.1 == tsColName cfg) :=
        List.mem_filter.mpr ⟨hp, beq_iff_eq.mpr hpn⟩
      have hne2 : p ≠ e := fun hpe => hpne (by rw [hpe]; exact he1)
      have h2 := two_le_length_of_mem_ne hpf hef hne2
      have hlen1 : (record.filter (fun p => norml p.1 == tsColName cfg)).length = 1 := by
        have := congrArg List.length hsup
        simpa using this
      omega
    have hbase : lastWriteFor cfg ws (rset record (tsColName cfg) (some T)) jt = some (some T) :=
      lastWriteFor_rset_self cfg ws record jt (tsColName cfg) (some T) hts_stab hj himmf huniq
    have hlw : lastWriteFor cfg ws (updateRecordPrep cfg now record true ws r) jt =
        some (some T) := by
      rcases hprep2 with hP | ⟨hP, hneq⟩
      · rw [hP]
        exact hbase
      · rw [hP]
        rw [lastWriteFor_rset_other cfg ws _ jt (updColName cfg) (some now) ?hne]
        · exact hbase
        case hne =>
          rw [hupd_stab]
          intro hc
          exact hneq (headerIndex_inj ws (updColName cfg) (tsColName cfg) jt hc hj)
    rw [(updsFold_col_last cfg ws r jt (updateRecordPrep cfg now record true ws r) ws
      hrowlt hcollt).1 (some T) hlw]
    rfl

/-- Witness for C2 at a concrete worksheet and record: the supplied
timestamp `"2030-01-01"` does not overwrite the stored `"T1"`. -/
theorem upsert_preserves_creation_timestamp_witness :
    upsert_by_wamid {} "NOW"
        [("wamid", some "wamid.A1"), ("timestamp", some "2030-01-01"), ("name", some "Ana")]
        true ⟨[["timestamp", "name", "wamid", "updated_at"], ["T1", "Maria", "wamid.A1", "U0"]]⟩ =
      .ok (⟨[["timestamp", "name", "wamid", "updated_at"], ["T1", "Ana", "wamid.A1", "NOW"]]⟩,
           [("wamid", some "wamid.A1"), ("timestamp", some "T1"), ("name", some "Ana"),
            ("updated_at", some "NOW")], ⟨2, false⟩) ∧
    cellVal ⟨[["timestamp", "name", "wamid", "updated_at"], ["T1", "Ana", "wamid.A1", "NOW"]]⟩
      2 1 = "T1" :=
  ⟨rfl,
   upsert_preserves_creation_timestamp {} "NOW"
     [("wamid", some "wamid.A1"), ("timestamp", some "2030-01-01"), ("name", some "Ana")]
     ⟨[["timestamp", "name", "wamid", "updated_at"], ["T1", "Maria", "wamid.A1", "U0"]]⟩
     "wamid.A1" 2 0 "T1" "2030-01-01"
     (by decide) (by decide) (by decide) (by decide) (by decide) (by decide) rfl
     (by decide) (by decide) (by decide)
     (⟨[["timestamp", "name", "wamid", "updated_at"], ["T1", "Ana", "wamid.A1", "NOW"]]⟩,
      [("wamid", some "wamid.A1"), ("timestamp", some "T1"), ("name", some "Ana"),
       ("updated_at", some "NOW")], ⟨2, false⟩) rfl⟩

/-! ### Lemmas: shape of the prepared update record, facts from a hit lookup -/

theorem prepTs_cases (cfg : Config) (record : Record) (pt : Bool)
    (ws : Worksheet) (r : Nat) :
    prepTs cfg record pt ws r = record ∨
      ∃ it, headerIndex ws (tsColName cfg) = some it ∧
        prepTs cfg record pt ws r =
          rset record (tsColName cfg) (some (cellVal ws r (it+1))) := by
  unfold prepTs
  cases hts : headerIndex ws (tsColName cfg) with
  | none => exact Or.inl (by simp only [])
  | some it =>
    cases pt with
    | false => exact Or.inl (by simp only [Bool.false_eq_true, if_false])
    | true =>
      by_cases hcur : cellVal ws r (it+1) ≠ ""
      · refine Or.inr ⟨it, rfl, ?_⟩
        simp only [eq_self_iff_true, if_true]
        rw [if_pos hcur]
      · refine Or.inl ?_
        simp only [eq_self_iff_true, if_true]
        rw [if_neg hcur]

theorem prepUpd_cases (cfg : Config) (now : String) (rec1 : Record) (ws : Worksheet) :
    prepUpd cfg now rec1 ws = rec1 ∨
      prepUpd cfg now rec1 ws = rset rec1 (updColName cfg) (some now) := by
  unfold prepUpd
  cases hu : headerIndex ws (updColName cfg) with
  | none => exact Or.inl (by simp only [])
  | some ju =>
    by_cases hcond : ¬ rhas rec1 (updColName cfg) = true ∨
        pyStrip ((flatget rec1 (updColName cfg)).getD "") = ""
    · refine Or.inr ?_
      simp only []
      rw [if_pos hcond]
    · refine Or.inl ?_
      simp only []
      rw [if_neg hcond]

theorem prep_cases (cfg : Config) (now : String) (record : Record) (pt : Bool)
    (ws : Worksheet) (r : Nat) :
    ∃ rec1,
      (rec1 = record ∨ ∃ it, headerIndex ws (tsColName cfg) = some it ∧
        rec1 = rset record (tsColName cfg) (some (cellVal ws r (it+1)))) ∧
      (updateRecordPrep cfg now record pt ws r = rec1 ∨
       updateRecordPrep cfg now record pt ws r = rset rec1 (updColName cfg) (some now)) := by
  refine ⟨prepTs cfg record pt ws r, ?_, ?_⟩
  · rcases prepTs_cases cfg record pt ws r with h | ⟨it, hit, h⟩
    · exact Or.inl h
    · exact Or.inr ⟨it, hit, h⟩
  · exact prepUpd_cases cfg now (prepTs cfg record pt ws r) ws

theorem mem_prep (cfg : Config) (now : String) (record : Record) (pt : Bool)
    (ws : Worksheet) (r : Nat) (p : String × Option String)
    (hp : p ∈ updateRecordPrep cfg now record pt ws r) :
    p ∈ record ∨
      (∃ it, headerIndex ws (tsColName cfg) = some it ∧
        p = (tsColName cfg, some (cellVal ws r (it+1)))) ∨
      p = (updColName cfg, some now) := by
  obtain ⟨rec1, h1, h2⟩ := prep_cases cfg now record pt ws r
  have hmem1 : p ∈ rec1 ∨ p = (updColName cfg, some now) := by
    rcases h2 with h2 | h2
    · rw [h2] at hp
      exact Or.inl hp
    · rw [h2] at hp
      rcases mem_rset _ _ _ _ hp with hm | hm
      · exact Or.inl hm
      · exact Or.inr hm
  rcases hmem1 with hm | hm
  · rcases h1 with h1 | ⟨it, hit, h1⟩
    · rw [h1] at hm
      exact Or.inl hm
    · rw [h1] at hm
      rcases mem_rset _ _ _ _ hm with hm2 | hm2
      · exact Or.inl hm2
      · exact Or.inr (Or.inl ⟨it, hit, hm2⟩)
  · exact Or.inr (Or.inr hm)

theorem find_row_some_facts (cfg : Config) (ws : Worksheet) (k : String) (r : Nat)
    (hq : pyStrip k = k) (hne : k ≠ "")
    (h : find_row_by_wamid cfg ws k = some r) :
    1 ≤ r ∧ r ≤ ws.rows.length ∧
      ∃ i, headerIndex ws (keyColName cfg) = some i ∧
        pyStrip (cellVal ws r (i+1)) = k := by
  cases hcol : headerIndex ws (keyColName cfg) with
  | none =>
    unfold find_row_by_wamid at h
    simp only [hq, hcol, if_neg hne] at h
    cases h
  | some i =>
    rw [find_row_eq cfg ws k i hq hne hcol] at h
    cases hfast : specFastRow ws (i+1) k with
    | some rf =>
      rw [hfast] at h
      simp only at h
      cases h
      obtain ⟨h1, h2, h3⟩ := firstRowFrom_some_spec _ 1 ws.rows r hfast
      refine ⟨h1, by omega, i, rfl, ?_⟩
      have hcell : cellVal ws r (i+1) = k := by
        unfold cellVal
        have := beq_iff_eq.mp h3
        simpa [Nat.add_sub_cancel] using this
      rw [hcell, hq]
    | none =>
      rw [hfast] at h
      simp only at h
      obtain ⟨h1, h2, h3⟩ := firstRowFrom_some_spec _ 1 ws.rows r h
      simp only [Bool.and_eq_true, bne_iff_ne, beq_iff_eq] at h3
      refine ⟨h1, by omega, i, rfl, ?_⟩
      unfold cellVal
      simpa [Nat.add_sub_cancel] using h3.2

/-! ### Claim C3 -/

/-- **C3, counterexample.**  The claim states that on the update path every
cell whose column is not a field of the incoming record keeps its previous
value.  On a worksheet with columns `updated_at, wamid` and an existing row
`OLD, K1`, upserting the record `{wamid: K1}` — which has no `updated_at`
field, and with no immutable columns configured — rewrites the
`updated_at` cell from `"OLD"` to the current time `"NEW"`: the update path
auto-fills the last-updated column. -/
theorem upsert_update_frame_counterexample :
    (upsert_by_wamid {} "NEW" [("wamid", some "K1")] true
        ⟨[["updated_at", "wamid"], ["OLD", "K1"]]⟩).map
        (fun out => cellVal out.1 2 1) = .ok "NEW" ∧
    ([("wamid", some ("K1" : String))].any (fun p => norml p.1 == "updated_at")) = false ∧
    immutableSet {} = [] := by
  refine ⟨rfl, by decide, rfl⟩

/-- **C3 (amended).**  On the update path of `upsert_by_wamid` (key found
at row `r`): rows other than `r` are untouched; a cell of row `r` whose
column is aliased by no incoming-record field keeps its previous value
unless its column is the configured updated-at column (which the update
path may auto-fill); and a cell whose column name is listed in the
configured immutable set keeps its previous value even when the record
carries that field. -/
theorem upsert_update_selective_frame (cfg : Config) (now : String) (record : Record)
    (pt : Bool) (ws : Worksheet) (K : String) (r : Nat)
    (hts_stab : norml (tsColName cfg) = tsColName cfg)
    (hupd_stab : norml (updColName cfg) = updColName cfg)
    (hKs : pyStrip K = K)
    (hval : wamidValOf cfg record = K) (hK : K ≠ "")
    (hfind : find_row_by_wamid cfg ws K = some r) :
    ∀ out, upsert_by_wamid cfg now record pt ws = .ok out →
      (∀ rr cc, 1 ≤ rr → rr ≠ r → cellVal out.1 rr cc = cellVal ws rr cc) ∧
      (∀ j, (∀ p, p ∈ record → ¬ headerIndex ws (norml p.1) = some j) →
        ¬ headerIndex ws (updColName cfg) = some j →
        cellVal out.1 r (j+1) = cellVal ws r (j+1)) ∧
      (∀ j name, headerIndex ws name = some j →
        (immutableSet cfg).contains name = true →
        cellVal out.1 r (j+1) = cellVal ws r (j+1)) := by
  intro out hout
  have hvne : wamidValOf cfg record ≠ "" := by rw [hval]; exact hK
  have hfind2 : find_row_by_wamid cfg ws (wamidValOf cfg record) = some r := by
    rw [hval]; exact hfind
  obtain ⟨hr1, hrle, -⟩ := find_row_some_facts cfg ws K r hKs hK hfind
  rw [upsert_update_eq cfg now record pt ws r hvne hfind2] at hout
  injection hout with htriple
  subst htriple
  refine ⟨?_, ?_, ?_⟩
  · intro rr cc h1 h2
    show cellVal ((updateRecordPrep cfg now record pt ws r).foldl (updStep cfg ws r) ws) rr cc =
      cellVal ws rr cc
    unfold cellVal
    rw [updsFold_other_row cfg ws r rr (by omega) _ ws]
  · intro j hnof hnupd
    show cellVal ((updateRecordPrep cfg now record pt ws r).foldl (updStep cfg ws r) ws) r (j+1) =
      cellVal ws r (j+1)
    refine updsFold_col_frame cfg ws r j (cellVal ws r (j+1)) _ ws ?_ rfl
    intro p hp hpj
    rcases mem_prep cfg now record pt ws r p hp with hm | ⟨it, hit, hm⟩ | hm
    · exact absurd hpj (hnof p hm)
    · right
      rw [hm] at hpj ⊢
      simp only at hpj ⊢
      rw [hts_stab] at hpj
      have : it = j := by
        rw [hit] at hpj
        injection hpj
      rw [this]
      rfl
    · rw [hm] at hpj
      simp only at hpj
      rw [hupd_stab] at hpj
      exact absurd hpj hnupd
  · intro j name hname himm
    show cellVal ((updateRecordPrep cfg now record pt ws r).foldl (updStep cfg ws r) ws) r (j+1) =
      cellVal ws r (j+1)
    refine updsFold_col_frame cfg ws r j (cellVal ws r (j+1)) _ ws ?_ rfl
    intro p hp hpj
    left
    rw [headerIndex_inj ws (norml p.1) name j hpj hname]
    exact himm

/-- Witness for C3 (amended): concrete update leaving the untouched `email`
column and the immutable `message` column intact. -/
theorem upsert_update_selective_frame_witness :
    upsert_by_wamid { immutable_cols := "message" } "NEW"
        [("wamid", some "K1"), ("name", some "Ana"), ("message", some "HACK")]
        true ⟨[["name", "email", "message", "wamid"], ["Bo", "e@x.io", "KEEP", "K1"]]⟩ =
      .ok (⟨[["name", "email", "message", "wamid"], ["Ana", "e@x.io", "KEEP", "K1"]]⟩,
           [("wamid", some "K1"), ("name", some "Ana"), ("message", some "HACK")],
           ⟨2, false⟩) ∧
    cellVal ⟨[["name", "email", "message", "wamid"], ["Ana", "e@x.io", "KEEP", "K1"]]⟩ 2 2 =
      cellVal ⟨[["name", "email", "message", "wamid"], ["Bo", "e@x.io", "KEEP", "K1"]]⟩ 2 2 ∧
    cellVal ⟨[["name", "email", "message", "wamid"], ["Ana", "e@x.io", "KEEP", "K1"]]⟩ 2 3 =
      cellVal ⟨[["name", "email", "message", "wamid"], ["Bo", "e@x.io", "KEEP", "K1"]]⟩ 2 3 := by
  have h := upsert_update_selective_frame { immutable_cols := "message" } "NEW"
    [("wamid", some "K1"), ("name", some "Ana"), ("message", some "HACK")] true
    ⟨[["name", "email", "message", "wamid"], ["Bo", "e@x.io", "KEEP", "K1"]]⟩
    "K1" 2 (by decide) (by decide) (by decide) (by decide) (by decide) rfl
    (⟨[["name", "email", "message", "wamid"], ["Ana", "e@x.io", "KEEP", "K1"]]⟩,
     [("wamid", some "K1"), ("name", some "Ana"), ("message", some "HACK")], ⟨2, false⟩) rfl
  exact ⟨rfl, h.2.1 1 (by decide) (by decide), h.2.2 2 "message" (by decide) (by decide)⟩

/-! ### Towards C1: key-holding rows and hypothesis transport -/

/-- Data row `r` (1-based, header excluded) holds key `k` in key column
index `i` (0-based) when its stripped cell equals `k`. -/
def holdsKey (ws : Worksheet) (i : Nat) (k : String) (r : Nat) : Prop :=
  2 ≤ r ∧ r ≤ ws.rows.length ∧ pyStrip (cellVal ws r (i+1)) = k

instance (ws : Worksheet) (i : Nat) (k : String) (r : Nat) :
    Decidable (holdsKey ws i k r) := by
  unfold holdsKey
  infer_instance

theorem mem_rset_of_mem (rec : Record) (k : String) (v : Option String)
    (p : String × Option String) (hp : p ∈ rec) (hne : (p.1 == k) = false) :
    p ∈ rset rec k v := by
  unfold rset
  by_cases h : rhas rec k
  · rw [if_pos h]
    exact List.mem_map.mpr ⟨p, hp, by rw [if_neg (by rw [hne]; exact fun hc => by cases hc)]⟩
  · rw [if_neg h]
    exact List.mem_append_left _ hp

theorem wamidValOf_rset (cfg : Config) (rec : Record) (k : String) (v : Option String)
    (hk1 : k ≠ "wamid") (hk2 : k ≠ keyColName cfg) :
    wamidValOf cfg (rset rec k v) = wamidValOf cfg rec := by
  unfold wamidValOf
  rw [rhas_rset_ne rec k v "wamid" (Ne.symm hk1)]
  by_cases h : rhas rec "wamid"
  · rw [h]
    simp only [if_true]
    rw [flatget_rset_ne rec k v "wamid" (Ne.symm hk1)]
  · rw [Bool.eq_false_iff.mpr h]
    simp only [Bool.false_eq_true, if_false]
    rw [flatget_rset_ne rec k v (keyColName cfg) (Ne.symm hk2)]

theorem wamidValOf_prep (cfg : Config) (now : String) (record : Record) (pt : Bool)
    (ws : Worksheet) (r : Nat)
    (hts_nw : tsColName cfg ≠ "wamid") (hupd_nw : updColName cfg ≠ "wamid")
    (hts_nk : tsColName cfg ≠ keyColName cfg) (hupd_nk : updColName cfg ≠ keyColName cfg) :
    wamidValOf cfg (updateRecordPrep cfg now record pt ws r) = wamidValOf cfg record := by
  obtain ⟨rec1, h1, h2⟩ := prep_cases cfg now record pt ws r
  have hrec1 : wamidValOf cfg rec1 = wamidValOf cfg record := by
    rcases h1 with h1 | ⟨it, -, h1⟩
    · rw [h1]
    · rw [h1, wamidValOf_rset cfg record (tsColName cfg) _ hts_nw hts_nk]
  rcases h2 with h2 | h2
  · rw [h2, hrec1]
  · rw [h2, wamidValOf_rset cfg rec1 (updColName cfg) _ hupd_nw hupd_nk, hrec1]

theorem headD_eq_getD (l : List Row) : l.headD [] = l.getD 0 [] := by
  cases l <;> rfl

theorem headerIndex_updsFold (cfg : Config) (ws : Worksheet) (r0 : Nat) (hr : 2 ≤ r0)
    (rec : Record) (name : String) :
    headerIndex (rec.foldl (updStep cfg ws r0) ws) name = headerIndex ws name := by
  unfold headerIndex
  have hrow : (rec.foldl (updStep cfg ws r0) ws).rows.getD 0 [] = ws.rows.getD 0 [] := by
    have := updsFold_other_row cfg ws r0 1 (by omega) rec ws
    simpa using this
  have : headersOf (rec.foldl (updStep cfg ws r0) ws) = headersOf ws := by
    unfold headersOf
    rw [headD_eq_getD, headD_eq_getD, hrow]
  rw [this]

theorem cellVal_updsFold_other_row (cfg : Config) (ws : Worksheet) (r0 : Nat)
    (rec : Record) (rr cc : Nat) (h : rr - 1 ≠ r0 - 1) :
    cellVal (rec.foldl (updStep cfg ws r0) ws) rr cc = cellVal ws rr cc := by
  unfold cellVal
  rw [updsFold_other_row cfg ws r0 rr h rec ws]

/-- With the key column at index `i`, a record whose key-aliasing fields all
strip to `k` (and at least one exists) builds an inserted row whose key cell
strips to `k`. -/
theorem lastFieldFor_of_hex (ws : Worksheet) (record : Record) (i : Nat) (k : String)
    (hall : ∀ p, p ∈ record → headerIndex ws (norml p.1) = some i →
      pyStrip (p.2.getD "") = k)
    (hex : ∃ p, p ∈ record ∧ headerIndex ws (norml p.1) = some i) :
    ∃ v, lastFieldFor ws record i = some v ∧ pyStrip (v.getD "") = k := by
  obtain ⟨e, he, hei⟩ := hex
  have hsome : (record.reverse.find? (fun p => headerIndex ws (norml p.1) == some i)).isSome := by
    rw [List.find?_isSome]
    exact ⟨e, List.mem_reverse.mpr he, by rw [hei]; exact beq_self_eq_true _⟩
  cases hf : record.reverse.find? (fun p => headerIndex ws (norml p.1) == some i) with
  | none => rw [hf] at hsome; cases hsome
  | some q =>
    have hqp0 := List.find?_some hf
    have hqp : headerIndex ws (norml q.1) = some i := by simpa using hqp0
    have hqm := List.mem_reverse.mp (List.mem_of_find?_eq_some hf)
    refine ⟨q.2, ?_, hall q hqm hqp⟩
    unfold lastFieldFor
    rw [hf]
    rfl

theorem buildInsertRow_key_cell (ws : Worksheet) (record : Record) (i : Nat) (k : String)
    (hlen : i < (headersOf ws).length)
    (hall : ∀ p, p ∈ record → headerIndex ws (norml p.1) = some i →
      pyStrip (p.2.getD "") = k)
    (hex : ∃ p, p ∈ record ∧ headerIndex ws (norml p.1) = some i) :
    pyStrip ((buildInsertRow ws record).getD i "") = k := by
  obtain ⟨v, hv, hvk⟩ := lastFieldFor_of_hex ws record i k hall hex
  have hinit : i < (List.replicate (max 1 (headersOf ws).length) "").length := by
    rw [List.length_replicate]
    omega
  have := (insFold_getD ws i record _ hinit).1 v hv
  unfold buildInsertRow
  rw [this]
  exact hvk

theorem specFast_none_of_absent (ws : Worksheet) (K : String) (i : Nat)
    (hKs : pyStrip K = K)
    (hhdr : cellVal ws 1 (i+1) ≠ K)
    (habs : ∀ r, ¬ holdsKey ws i K r) :
    specFastRow ws (i+1) K = none := by
  unfold specFastRow
  rw [firstRowFrom_none_iff]
  intro j hj
  show ((ws.rows.getD j []).getD i "" == K) = false
  rw [beq_eq_false_iff_ne]
  intro he
  cases j with
  | zero => exact hhdr he
  | succ m =>
    refine habs (1 + (m+1)) ⟨by omega, by omega, ?_⟩
    have h1 : 1 + (m+1) - 1 = m + 1 := by omega
    unfold cellVal
    rw [h1]
    show pyStrip ((ws.rows.getD (m+1) []).getD i "") = K
    rw [he, hKs]

theorem specTrim_none_of_absent (ws : Worksheet) (K : String) (i : Nat)
    (habs : ∀ r, ¬ holdsKey ws i K r) :
    specTrimRow ws (i+1) K = none := by
  unfold specTrimRow
  rw [firstRowFrom_none_iff]
  intro j hj
  cases j with
  | zero => rfl
  | succ m =>
    show ((1 + (m+1) : Nat) != 1 && (pyStrip ((ws.rows.getD (m+1) []).getD i "") == K)) = false
    have hb : ((1 + (m+1) : Nat) != 1) = true := by
      rw [bne_iff_ne]
      omega
    rw [hb, Bool.true_and, beq_eq_false_iff_ne]
    intro he
    refine habs (1 + (m+1)) ⟨by omega, by omega, ?_⟩
    have h1 : 1 + (m+1) - 1 = m + 1 := by omega
    unfold cellVal
    rw [h1]
    exact he

theorem find_row_none_of_absent (cfg : Config) (ws : Worksheet) (K : String) (i : Nat)
    (hKs : pyStrip K = K) (hK : K ≠ "")
    (hcol : headerIndex ws (keyColName cfg) = some i)
    (hhdr : cellVal ws 1 (i+1) ≠ K)
    (habs : ∀ r, ¬ holdsKey ws i K r) :
    find_row_by_wamid cfg ws K = none := by
  rw [find_row_eq cfg ws K i hKs hK hcol,
    specFast_none_of_absent ws K i hKs hhdr habs]
  exact specTrim_none_of_absent ws K i habs

/-- Insert path of `upsert_by_wamid` under a key-hygienic state: when no data
row holds the key, the call appends the built row, reports it as created at
row `length+1`, and afterwards exactly that row holds the key. -/
theorem upsert_absent (cfg : Config) (now : String) (record : Record) (pt : Bool)
    (ws : Worksheet) (K : String) (i : Nat)
    (hKs : pyStrip K = K) (hK : K ≠ "")
    (hval : wamidValOf cfg record = K)
    (hcol : headerIndex ws (keyColName cfg) = some i)
    (hhdr : cellVal ws 1 (i+1) ≠ K)
    (hall : ∀ p, p ∈ record → headerIndex ws (norml p.1) = some i →
      pyStrip (p.2.getD "") = K)
    (hex : ∃ p, p ∈ record ∧ headerIndex ws (norml p.1) = some i)
    (habs : ∀ r, ¬ holdsKey ws i K r) :
    upsert_by_wamid cfg now record pt ws =
      .ok (⟨ws.rows ++ [buildInsertRow ws record]⟩, record, ⟨ws.rows.length + 1, true⟩) ∧
    (∀ r, holdsKey ⟨ws.rows ++ [buildInsertRow ws record]⟩ i K r ↔ r = ws.rows.length + 1) := by
  have hrows_ne : ws.rows ≠ [] := headerIndex_rows_ne ws (keyColName cfg) i hcol
  have hN : 1 ≤ ws.rows.length := List.length_pos.mpr hrows_ne
  have hfind0 : find_row_by_wamid cfg ws K = none :=
    find_row_none_of_absent cfg ws K i hKs hK hcol hhdr habs
  have hkc : pyStrip ((buildInsertRow ws record).getD i "") = K :=
    buildInsertRow_key_cell ws record i K (headerIndex_spec ws (keyColName cfg) i hcol).1
      hall hex
  have hcol1 : headerIndex ⟨ws.rows ++ [buildInsertRow ws record]⟩ (keyColName cfg) = some i := by
    rw [headerIndex_append ws _ _ hrows_ne]
    exact hcol
  have hlen1 : (⟨ws.rows ++ [buildInsertRow ws record]⟩ : Worksheet).rows.length =
      ws.rows.length + 1 := by
    show (ws.rows ++ [buildInsertRow ws record]).length = ws.rows.length + 1
    rw [List.length_append]
    rfl
  have hlast : cellVal ⟨ws.rows ++ [buildInsertRow ws record]⟩ (ws.rows.length + 1) (i+1) =
      (buildInsertRow ws record).getD i "" := by
    rw [cellVal_append_last ws (buildInsertRow ws record) (i+1)]
    rfl
  have hchar : ∀ r, holdsKey ⟨ws.rows ++ [buildInsertRow ws record]⟩ i K r ↔
      r = ws.rows.length + 1 := by
    intro r
    constructor
    · rintro ⟨h2, hle, hc⟩
      rw [hlen1] at hle
      by_contra hne
      have hlt : r - 1 < ws.rows.length := by omega
      rw [cellVal_append_lt ws _ r (i+1) hlt] at hc
      exact habs r ⟨h2, by omega, hc⟩
    · rintro rfl
      refine ⟨by omega, by rw [hlen1], ?_⟩
      rw [hlast]
      exact hkc
  have hfind1 : find_row_by_wamid cfg ⟨ws.rows ++ [buildInsertRow ws record]⟩ K =
      some (ws.rows.length + 1) := by
    rw [find_row_eq cfg _ K i hKs hK hcol1]
    have hcomm : 1 + ws.rows.length = ws.rows.length + 1 := by omega
    cases hx : ((buildInsertRow ws record).getD i "" == K) with
    | true =>
      have hfastv : specFastRow ⟨ws.rows ++ [buildInsertRow ws record]⟩ (i+1) K =
          some (ws.rows.length + 1) := by
        unfold specFastRow
        show firstRowFrom (fun _ row => row.getD (i+1-1) "" == K) 1
          (ws.rows ++ [buildInsertRow ws record]) = some (ws.rows.length + 1)
        rw [firstRowFrom_append]
        have hold : firstRowFrom (fun _ row => row.getD (i+1-1) "" == K) 1 ws.rows = none :=
          specFast_none_of_absent ws K i hKs hhdr habs
        rw [hold]
        show (if ((buildInsertRow ws record).getD (i+1-1) "" == K) = true
          then some (1 + ws.rows.length) else none) = some (ws.rows.length + 1)
        have hx1 : ((buildInsertRow ws record).getD (i+1-1) "" == K) = true := hx
        rw [if_pos hx1, hcomm]
      rw [hfastv]
    | false =>
      have hfastv : specFastRow ⟨ws.rows ++ [buildInsertRow ws record]⟩ (i+1) K = none := by
        unfold specFastRow
        show firstRowFrom (fun _ row => row.getD (i+1-1) "" == K) 1
          (ws.rows ++ [buildInsertRow ws record]) = none
        rw [firstRowFrom_append]
        have hold : firstRowFrom (fun _ row => row.getD (i+1-1) "" == K) 1 ws.rows = none :=
          specFast_none_of_absent ws K i hKs hhdr habs
        rw [hold]
        show (if ((buildInsertRow ws record).getD (i+1-1) "" == K) = true
          then some (1 + ws.rows.length) else none) = none
        have hx1 : ((buildInsertRow ws record).getD (i+1-1) "" == K) = false := hx
        rw [if_neg (by rw [hx1]; intro hc; cases hc)]
      rw [hfastv]
      show specTrimRow ⟨ws.rows ++ [buildInsertRow ws record]⟩ (i+1) K =
        some (ws.rows.length + 1)
      unfold specTrimRow
      show firstRowFrom
        (fun r row => r != 1 && (pyStrip (row.getD (i+1-1) "") == K)) 1
        (ws.rows ++ [buildInsertRow ws record]) = some (ws.rows.length + 1)
      rw [firstRowFrom_append]
      have hold : firstRowFrom
          (fun r row => r != 1 && (pyStrip (row.getD (i+1-1) "") == K)) 1 ws.rows = none :=
        specTrim_none_of_absent ws K i habs
      rw [hold]
      show (if ((1 + ws.rows.length : Nat) != 1 &&
          (pyStrip ((buildInsertRow ws record).getD (i+1-1) "") == K)) = true
        then some (1 + ws.rows.length) else none) = some (ws.rows.length + 1)
      have hb1 : ((1 + ws.rows.length : Nat) != 1) = true := by
        rw [bne_iff_ne]
        omega
      have hb2 : (pyStrip ((buildInsertRow ws record).getD (i+1-1) "") == K) = true := by
        rw [beq_iff_eq]
        exact hkc
      rw [hb1, hb2]
      show some (1 + ws.rows.length) = some (ws.rows.length + 1)
      rw [hcomm]
  refine ⟨?_, hchar⟩
  rw [upsert_insert_eq cfg now record pt ws (by rw [hval]; exact hK)
    (by rw [hval]; exact hfind0)]
  rw [hval, hfind1]

theorem find_row_some_of_present (cfg : Config) (ws : Worksheet) (K : String) (i r0 : Nat)
    (hKs : pyStrip K = K) (hK : K ≠ "")
    (hcol : headerIndex ws (keyColName cfg) = some i)
    (hhdr : cellVal ws 1 (i+1) ≠ K)
    (hpres : holdsKey ws i K r0)
    (huniq : ∀ r, holdsKey ws i K r → r = r0) :
    find_row_by_wamid cfg ws K = some r0 := by
  rw [find_row_eq cfg ws K i hKs hK hcol]
  cases hfast : specFastRow ws (i+1) K with
  | some rf =>
    obtain ⟨h1, h2, h3⟩ := firstRowFrom_some_spec _ 1 ws.rows rf hfast
    have hcell : (ws.rows.getD (rf - 1) []).getD i "" = K := by
      have h3' : ((ws.rows.getD (rf - 1) []).getD (i+1-1) "" == K) = true := h3
      exact beq_iff_eq.mp h3'
    have hcv : cellVal ws rf (i+1) = K := hcell
    have hrf2 : 2 ≤ rf := by
      rcases Nat.lt_or_ge rf 2 with hlt | hge
      · exfalso
        have : rf = 1 := by omega
        rw [this] at hcv
        exact hhdr hcv
      · exact hge
    have := huniq rf ⟨hrf2, by omega, by rw [hcv]; exact hKs⟩
    rw [this]
  | none =>
    cases ht : specTrimRow ws (i+1) K with
    | none =>
      exfalso
      unfold specTrimRow at ht
      have := (firstRowFrom_none_iff _ 1 ws.rows).mp ht (r0 - 1)
        (by obtain ⟨a, b, -⟩ := hpres; omega)
      obtain ⟨a, b, c⟩ := hpres
      have h1 : 1 + (r0 - 1) = r0 := by omega
      rw [h1] at this
      have hp : ((r0 : Nat) != 1 && (pyStrip ((ws.rows.getD (r0-1) []).getD (i+1-1) "") == K))
          = true := by
        have hb1 : ((r0 : Nat) != 1) = true := by
          rw [bne_iff_ne]
          omega
        have hb2 : (pyStrip ((ws.rows.getD (r0-1) []).getD (i+1-1) "") == K) = true := by
          rw [beq_iff_eq]
          exact c
        rw [hb1, hb2]
        rfl
      rw [hp] at this
      cases this
    | some rt =>
      obtain ⟨h1, h2, h3⟩ := firstRowFrom_some_spec _ 1 ws.rows rt ht
      have h3' : ((rt : Nat) != 1 && (pyStrip ((ws.rows.getD (rt-1) []).getD (i+1-1) "") == K))
          = true := h3
      rw [Bool.and_eq_true] at h3'
      have hrt1 : rt ≠ 1 := by
        have := bne_iff_ne.mp h3'.1
        exact this
      have hcell : pyStrip (cellVal ws rt (i+1)) = K := beq_iff_eq.mp h3'.2
      have := huniq rt ⟨by omega, by omega, hcell⟩
      rw [this]

/-- Update path of `upsert_by_wamid` under a key-hygienic state: when exactly
the data row `r0` holds the key, the call updates row `r0` in place, reports
`created = false`, leaves length, header row and all other rows intact, and
afterwards exactly row `r0` still holds the key. -/
theorem upsert_present (cfg : Config) (now : String) (record : Record) (pt : Bool)
    (ws : Worksheet) (K : String) (i r0 : Nat)
    (hKs : pyStrip K = K) (hK : K ≠ "")
    (hval : wamidValOf cfg record = K)
    (hcol : headerIndex ws (keyColName cfg) = some i)
    (hhdr : cellVal ws 1 (i+1) ≠ K)
    (hall : ∀ p, p ∈ record → headerIndex ws (norml p.1) = some i →
      pyStrip (p.2.getD "") = K)
    (hex : ∃ p, p ∈ record ∧ headerIndex ws (norml p.1) = some i)
    (hts_stab : norml (tsColName cfg) = tsColName cfg)
    (hupd_stab : norml (updColName cfg) = updColName cfg)
    (hts_nk : tsColName cfg ≠ keyColName cfg)
    (hupd_nk : updColName cfg ≠ keyColName cfg)
    (hpres : holdsKey ws i K r0)
    (huniq : ∀ r, holdsKey ws i K r → r = r0) :
    upsert_by_wamid cfg now record pt ws =
      .ok (applyUpdates cfg ws r0 (updateRecordPrep cfg now record pt ws r0),
           updateRecordPrep cfg now record pt ws r0, ⟨r0, false⟩) ∧
    (applyUpdates cfg ws r0 (updateRecordPrep cfg now record pt ws r0)).rows.length =
      ws.rows.length ∧
    (∀ name, headerIndex
      (applyUpdates cfg ws r0 (updateRecordPrep cfg now record pt ws r0)) name =
        headerIndex ws name) ∧
    cellVal (applyUpdates cfg ws r0 (updateRecordPrep cfg now record pt ws r0)) 1 (i+1) =
      cellVal ws 1 (i+1) ∧
    (∀ r, holdsKey
      (applyUpdates cfg ws r0 (updateRecordPrep cfg now record pt ws r0)) i K r ↔ r = r0) := by
  obtain ⟨hr2, hrle, hrk⟩ := hpres
  have hfind : find_row_by_wamid cfg ws K = some r0 :=
    find_row_some_of_present cfg ws K i r0 hKs hK hcol hhdr ⟨hr2, hrle, hrk⟩ huniq
  have hts_ne_i : ¬ headerIndex ws (norml (tsColName cfg)) = some i := by
    rw [hts_stab]
    intro hc
    exact hts_nk (headerIndex_inj ws _ _ i hc hcol)
  have hupd_ne_i : ¬ headerIndex ws (norml (updColName cfg)) = some i := by
    rw [hupd_stab]
    intro hc
    exact hupd_nk (headerIndex_inj ws _ _ i hc hcol)
  have hlw : lastWriteFor cfg ws (updateRecordPrep cfg now record pt ws r0) i =
      lastWriteFor cfg ws record i := by
    obtain ⟨rec1, h1, h2⟩ := prep_cases cfg now record pt ws r0
    have e1 : lastWriteFor cfg ws rec1 i = lastWriteFor cfg ws record i := by
      rcases h1 with h1 | ⟨it, -, h1⟩
      · rw [h1]
      · rw [h1]
        exact lastWriteFor_rset_other cfg ws record i (tsColName cfg) _ hts_ne_i
    rcases h2 with h2 | h2
    · rw [h2, e1]
    · rw [h2, lastWriteFor_rset_other cfg ws rec1 i (updColName cfg) _ hupd_ne_i, e1]
  have hrowlt : r0 - 1 < ws.rows.length := by omega
  have hcell_ne : (ws.rows.getD (r0-1) []).getD i "" ≠ "" := by
    intro hc
    have : pyStrip (cellVal ws r0 (i+1)) = "" := by
      have hcv : cellVal ws r0 (i+1) = (ws.rows.getD (r0-1) []).getD i "" := rfl
      rw [hcv, hc]
      rfl
    rw [hrk] at this
    exact hK this
  have hcollt : i < (ws.rows.getD (r0-1) []).length := getD_ne_default_poly hcell_ne
  have hkey1 : pyStrip (cellVal
      (applyUpdates cfg ws r0 (updateRecordPrep cfg now record pt ws r0)) r0 (i+1)) = K := by
    show pyStrip (cellVal
      ((updateRecordPrep cfg now record pt ws r0).foldl (updStep cfg ws r0) ws) r0 (i+1)) = K
    by_cases himm : (immutableSet cfg).contains (keyColName cfg) = true
    · have hlwn : lastWriteFor cfg ws (updateRecordPrep cfg now record pt ws r0) i = none := by
        rw [hlw]
        exact lastWriteFor_none_of_imm cfg ws record i (keyColName cfg) hcol himm
      rw [(updsFold_col_last cfg ws r0 i (updateRecordPrep cfg now record pt ws r0) ws
        hrowlt hcollt).2 hlwn]
      exact hrk
    · have himm' : (immutableSet cfg).contains (keyColName cfg) = false :=
        Bool.eq_false_iff.mpr himm
      obtain ⟨v, hv, hvk⟩ := lastFieldFor_of_hex ws record i K hall hex
      have hlws : lastWriteFor cfg ws (updateRecordPrep cfg now record pt ws r0) i = some v := by
        rw [hlw, lastWriteFor_eq_lastField cfg ws record i (keyColName cfg) hcol himm']
        exact hv
      rw [(updsFold_col_last cfg ws r0 i (updateRecordPrep cfg now record pt ws r0) ws
        hrowlt hcollt).1 v hlws]
      exact hvk
  have hlen : (applyUpdates cfg ws r0 (updateRecordPrep cfg now record pt ws r0)).rows.length =
      ws.rows.length := updsFold_length cfg ws r0 _ ws
  have hchar : ∀ r, holdsKey
      (applyUpdates cfg ws r0 (updateRecordPrep cfg now record pt ws r0)) i K r ↔ r = r0 := by
    intro r
    constructor
    · rintro ⟨h2, hle, hc⟩
      rw [hlen] at hle
      by_cases hr : r = r0
      · exact hr
      · have hcv : cellVal (applyUpdates cfg ws r0 (updateRecordPrep cfg now record pt ws r0))
            r (i+1) = cellVal ws r (i+1) :=
          cellVal_updsFold_other_row cfg ws r0 _ r (i+1) (by omega)
        rw [hcv] at hc
        exact huniq r ⟨h2, hle, hc⟩
    · rintro rfl
      exact ⟨hr2, by rw [hlen]; omega, hkey1⟩
  refine ⟨?_, hlen, ?_, ?_, hchar⟩
  · exact upsert_update_eq cfg now record pt ws r0 (by rw [hval]; exact hK)
      (by rw [hval]; exact hfind)
  · intro name
    exact headerIndex_updsFold cfg ws r0 hr2 _ name
  · exact cellVal_updsFold_other_row cfg ws r0 _ 1 (i+1) (by omega)

theorem mem_prep_of_mem (cfg : Config) (now : String) (record : Record) (pt : Bool)
    (ws : Worksheet) (r : Nat) (p : String × Option String) (hp : p ∈ record)
    (h1 : p.1 ≠ tsColName cfg) (h2 : p.1 ≠ updColName cfg) :
    p ∈ updateRecordPrep cfg now record pt ws r := by
  obtain ⟨rec1, hc1, hc2⟩ := prep_cases cfg now record pt ws r
  have hm1 : p ∈ rec1 := by
    rcases hc1 with hc1 | ⟨it, -, hc1⟩
    · rw [hc1]
      exact hp
    · rw [hc1]
      exact mem_rset_of_mem record _ _ p hp (beq_eq_false_iff_ne.mpr h1)
  rcases hc2 with hc2 | hc2
  · rw [hc2]
    exact hm1
  · rw [hc2]
    exact mem_rset_of_mem rec1 _ _ p hm1 (beq_eq_false_iff_ne.mpr h2)

/-! ### Claim C1 -/

/-- **C1 (counterexample to the claim as stated).**  Idempotence fails for an
arbitrary initial store state: if two data rows already hold the key, two
sequential upserts both update the first matching row and leave the duplicate
in place, so more than one row holds the key afterwards.  The claim's "for
every store state … exactly one row holding that key" is therefore false. -/
theorem upsert_twice_converges_counterexample :
    upsert_by_wamid {} "N1" [("wamid", some "K1")] true ⟨[["wamid"], ["K1"], ["K1"]]⟩ =
      .ok (⟨[["wamid"], ["K1"], ["K1"]]⟩, [("wamid", some "K1")], ⟨2, false⟩) ∧
    upsert_by_wamid {} "N2" [("wamid", some "K1")] true ⟨[["wamid"], ["K1"], ["K1"]]⟩ =
      .ok (⟨[["wamid"], ["K1"], ["K1"]]⟩, [("wamid", some "K1")], ⟨2, false⟩) ∧
    holdsKey ⟨[["wamid"], ["K1"], ["K1"]]⟩ 0 "K1" 2 ∧
    holdsKey ⟨[["wamid"], ["K1"], ["K1"]]⟩ 0 "K1" 3 ∧
    (2 : Nat) ≠ 3 :=
  ⟨rfl, rfl, by decide, by decide, by decide⟩

/-- **C1 (amended).**  Sequential upsert idempotence holds for key-hygienic
states: the key `K` is strip-stable and non-empty, the record's key field
carries `K`, the key column exists and its header cell does not itself equal
`K`, every record field aliasing the key column carries `K` (and one does),
the timestamp and updated-at column names are strip/lower-stable and distinct
from the key column name and from the literal field name `"wamid"`, and at
most one data row holds `K` initially.  Then two sequential calls of
`upsert_by_wamid` (the second seeing the first's worksheet and mutated
record) both succeed, the second reports `created = false` with the same row
number as the first, exactly one row holds `K` afterwards, and if `K` was
absent initially the first call reports `created = true`. -/
theorem upsert_twice_converges (cfg : Config) (now1 now2 : String) (record : Record)
    (pt : Bool) (ws : Worksheet) (K : String) (i : Nat)
    (hKs : pyStrip K = K) (hK : K ≠ "")
    (hval : wamidValOf cfg record = K)
    (hcol : headerIndex ws (keyColName cfg) = some i)
    (hhdr : cellVal ws 1 (i+1) ≠ K)
    (hall : ∀ p, p ∈ record → headerIndex ws (norml p.1) = some i →
      pyStrip (p.2.getD "") = K)
    (hex : ∃ p, p ∈ record ∧ headerIndex ws (norml p.1) = some i)
    (hts_stab : norml (tsColName cfg) = tsColName cfg)
    (hupd_stab : norml (updColName cfg) = updColName cfg)
    (hts_nk : tsColName cfg ≠ keyColName cfg)
    (hupd_nk : updColName cfg ≠ keyColName cfg)
    (hts_nw : tsColName cfg ≠ "wamid")
    (hupd_nw : updColName cfg ≠ "wamid")
    (huniq0 : ∀ r1 r2, holdsKey ws i K r1 → holdsKey ws i K r2 → r1 = r2) :
    ∃ ws1 rec1 res1 ws2 rec2 res2,
      upsert_by_wamid cfg now1 record pt ws = .ok (ws1, rec1, res1) ∧
      upsert_by_wamid cfg now2 rec1 pt ws1 = .ok (ws2, rec2, res2) ∧
      res2.row = res1.row ∧ res2.created = false ∧
      (∀ r, holdsKey ws2 i K r ↔ r = res1.row) ∧
      ((∀ r, ¬ holdsKey ws i K r) → res1.created = true) := by
  have hts_ne_i : ¬ headerIndex ws (norml (tsColName cfg)) = some i := by
    rw [hts_stab]
    intro hc
    exact hts_nk (headerIndex_inj ws _ _ i hc hcol)
  have hupd_ne_i : ¬ headerIndex ws (norml (updColName cfg)) = some i := by
    rw [hupd_stab]
    intro hc
    exact hupd_nk (headerIndex_inj ws _ _ i hc hcol)
  by_cases hexists : ∃ r, holdsKey ws i K r
  · obtain ⟨r0, hr0⟩ := hexists
    have huniq : ∀ r, holdsKey ws i K r → r = r0 := fun r h => huniq0 r r0 h hr0
    obtain ⟨heq1, hlen1, hHI1, hhdr1, hchar1⟩ := upsert_present cfg now1 record pt ws K i r0
      hKs hK hval hcol hhdr hall hex hts_stab hupd_stab hts_nk hupd_nk hr0 huniq
    have hval1 : wamidValOf cfg (updateRecordPrep cfg now1 record pt ws r0) = K := by
      rw [wamidValOf_prep cfg now1 record pt ws r0 hts_nw hupd_nw hts_nk hupd_nk]
      exact hval
    have hcol2 : headerIndex
        (applyUpdates cfg ws r0 (updateRecordPrep cfg now1 record pt ws r0))
        (keyColName cfg) = some i := by
      rw [hHI1]
      exact hcol
    have hhdr2 : cellVal (applyUpdates cfg ws r0 (updateRecordPrep cfg now1 record pt ws r0))
        1 (i+1) ≠ K := by
      rw [hhdr1]
      exact hhdr
    have hall2 : ∀ p, p ∈ updateRecordPrep cfg now1 record pt ws r0 →
        headerIndex (applyUpdates cfg ws r0 (updateRecordPrep cfg now1 record pt ws r0))
          (norml p.1) = some i →
        pyStrip (p.2.getD "") = K := by
      intro p hp hpi
      rw [hHI1] at hpi
      rcases mem_prep cfg now1 record pt ws r0 p hp with hm | ⟨it, -, hm⟩ | hm
      · exact hall p hm hpi
      · exfalso
        rw [hm] at hpi
        exact hts_ne_i hpi
      · exfalso
        rw [hm] at hpi
        exact hupd_ne_i hpi
    have hex2 : ∃ p, p ∈ updateRecordPrep cfg now1 record pt ws r0 ∧
        headerIndex (applyUpdates cfg ws r0 (updateRecordPrep cfg now1 record pt ws r0))
          (norml p.1) = some i := by
      obtain ⟨e, he, hei⟩ := hex
      have he1 : e.1 ≠ tsColName cfg := by
        intro hc
        rw [hc] at hei
        exact hts_ne_i hei
      have he2 : e.1 ≠ updColName cfg := by
        intro hc
        rw [hc] at hei
        exact hupd_ne_i hei
      refine ⟨e, mem_prep_of_mem cfg now1 record pt ws r0 e he he1 he2, ?_⟩
      rw [hHI1]
      exact hei
    have hpres2 : holdsKey
        (applyUpdates cfg ws r0 (updateRecordPrep cfg now1 record pt ws r0)) i K r0 :=
      (hchar1 r0).mpr rfl
    have huniq2 : ∀ r, holdsKey
        (applyUpdates cfg ws r0 (updateRecordPrep cfg now1 record pt ws r0)) i K r → r = r0 :=
      fun r h => (hchar1 r).mp h
    obtain ⟨heq2, -, -, -, hchar2⟩ := upsert_present cfg now2
      (updateRecordPrep cfg now1 record pt ws r0) pt
      (applyUpdates cfg ws r0 (updateRecordPrep cfg now1 record pt ws r0)) K i r0
      hKs hK hval1 hcol2 hhdr2 hall2 hex2 hts_stab hupd_stab hts_nk hupd_nk hpres2 huniq2
    refine ⟨_, _, ⟨r0, false⟩, _, _, ⟨r0, false⟩, heq1, heq2, rfl, rfl, hchar2, ?_⟩
    intro habs
    exact absurd hr0 (habs r0)
  · have habs : ∀ r, ¬ holdsKey ws i K r := fun r h => hexists ⟨r, h⟩
    obtain ⟨heq1, hchar1⟩ := upsert_absent cfg now1 record pt ws K i
      hKs hK hval hcol hhdr hall hex habs
    have hrows_ne : ws.rows ≠ [] := headerIndex_rows_ne ws (keyColName cfg) i hcol
    have hN : 1 ≤ ws.rows.length := List.length_pos.mpr hrows_ne
    have hHI1 : ∀ name, headerIndex ⟨ws.rows ++ [buildInsertRow ws record]⟩ name =
        headerIndex ws name := fun name => headerIndex_append ws _ name hrows_ne
    have hcol2 : headerIndex ⟨ws.rows ++ [buildInsertRow ws record]⟩ (keyColName cfg) =
        some i := by
      rw [hHI1]
      exact hcol
    have hhdr2 : cellVal ⟨ws.rows ++ [buildInsertRow ws record]⟩ 1 (i+1) ≠ K := by
      rw [cellVal_append_lt ws _ 1 (i+1) (by omega)]
      exact hhdr
    have hall2 : ∀ p, p ∈ record →
        headerIndex ⟨ws.rows ++ [buildInsertRow ws record]⟩ (norml p.1) = some i →
        pyStrip (p.2.getD "") = K := by
      intro p hp hpi
      rw [hHI1] at hpi
      exact hall p hp hpi
    have hex2 : ∃ p, p ∈ record ∧
        headerIndex ⟨ws.rows ++ [buildInsertRow ws record]⟩ (norml p.1) = some i := by
      obtain ⟨e, he, hei⟩ := hex
      refine ⟨e, he, ?_⟩
      rw [hHI1]
      exact hei
    have hpres2 : holdsKey ⟨ws.rows ++ [buildInsertRow ws record]⟩ i K (ws.rows.length + 1) :=
      (hchar1 (ws.rows.length + 1)).mpr rfl
    have huniq2 : ∀ r, holdsKey ⟨ws.rows ++ [buildInsertRow ws record]⟩ i K r →
        r = ws.rows.length + 1 := fun r h => (hchar1 r).mp h
    obtain ⟨heq2, -, -, -, hchar2⟩ := upsert_present cfg now2 record pt
      ⟨ws.rows ++ [buildInsertRow ws record]⟩ K i (ws.rows.length + 1)
      hKs hK hval hcol2 hhdr2 hall2 hex2 hts_stab hupd_stab hts_nk hupd_nk hpres2 huniq2
    exact ⟨_, _, ⟨ws.rows.length + 1, true⟩, _, _, ⟨ws.rows.length + 1, false⟩,
      heq1, heq2, rfl, rfl, hchar2, fun _ => rfl⟩

/-- **C1 (witness).**  The amended idempotence theorem applied to a concrete
one-lead sheet. -/
theorem upsert_twice_converges_witness :
    ∃ ws1 rec1 res1 ws2 rec2 res2,
      upsert_by_wamid {} "N1" [("wamid", some "K1")] true
          ⟨[["timestamp", "wamid", "updated_at"], ["T1", "K1", "U1"]]⟩ =
        .ok (ws1, rec1, res1) ∧
      upsert_by_wamid {} "N2" rec1 true ws1 = .ok (ws2, rec2, res2) ∧
      res2.row = res1.row ∧ res2.created = false ∧
      (∀ r, holdsKey ws2 1 "K1" r ↔ r = res1.row) ∧
      ((∀ r, ¬ holdsKey ⟨[["timestamp", "wamid", "updated_at"], ["T1", "K1", "U1"]]⟩
          1 "K1" r) → res1.created = true) :=
  upsert_twice_converges {} "N1" "N2" [("wamid", some "K1")] true
    ⟨[["timestamp", "wamid", "updated_at"], ["T1", "K1", "U1"]]⟩ "K1" 1
    (by decide) (by decide) (by decide) (by decide) (by decide) (by decide) (by decide)
    (by decide) (by decide) (by decide) (by decide) (by decide) (by decide)
    (by
      intro r1 r2 h1 h2
      obtain ⟨a1, b1, -⟩ := h1
      obtain ⟨a2, b2, -⟩ := h2
      have hl : (⟨[["timestamp", "wamid", "updated_at"], ["T1", "K1", "U1"]]⟩ :
          Worksheet).rows.length = 2 := rfl
      rw [hl] at b1 b2
      omega)

/-! ### Towards C5-C10: pipeline-stage lemmas -/

theorem pyOrS_truthy (a : Option String) (b : String) (h : truthy a = true) :
    pyOrS a b = a.getD "" := by
  cases a with
  | none => cases h
  | some s =>
    have h1 : (s != "") = true := h
    show (if s != "" then s else b) = (some s).getD ""
    rw [if_pos h1]
    rfl

theorem pyOrS_falsy (a : Option String) (b : String) (h : truthy a = false) :
    pyOrS a b = b := by
  cases a with
  | none => rfl
  | some s =>
    have h1 : (s != "") = false := h
    show (if s != "" then s else b) = b
    rw [if_neg (by rw [h1]; exact Bool.false_ne_true)]

theorem mkDict_append_single (l : List (String × Option String)) (k : String)
    (v : Option String) :
    mkDict (l ++ [(k, v)]) = rset (mkDict l) k v := by
  unfold mkDict
  rw [List.foldl_append]
  rfl

/-- A run whose lead extracts and validates proceeds to the post-extraction
stages. -/
theorem processIncoming_reached (cfg : Config) (eff : Effects) (now req : String)
    (ws0 : Worksheet) (p : Payload) (lead : Lead)
    (hex : extract_from_webhook p = .ok lead)
    (hv : (truthy lead.wamid || truthy lead.phone || truthy lead.name) = true) :
    processIncoming cfg eff now req ws0 p = afterExtract cfg eff now req ws0 lead := by
  unfold processIncoming
  rw [hex]
  show (if truthy lead.wamid || truthy lead.phone || truthy lead.name then
      afterExtract cfg eff now req ws0 lead
    else (.err req "invalid_payload" none, ⟨[], false⟩, ws0)) =
    afterExtract cfg eff now req ws0 lead
  rw [if_pos hv]

/-- The post-extraction stages when the provisional upsert succeeds, written
out with the dedupe triple and the first upsert's result substituted. -/
theorem afterExtract_ok (cfg : Config) (eff : Effects) (now req : String)
    (ws0 : Worksheet) (lead : Lead)
    (isDup : Bool) (rowIdx0 : Option Nat) (existingTs : Option String)
    (ws1 : Worksheet) (base1 : Record) (res1 : UpsertRes)
    (hd : dedupeStage cfg eff ws0 lead = (isDup, rowIdx0, existingTs))
    (h1 : eff.upsert1Raises = false)
    (hup : upsert_by_wamid cfg now (provisionalRecord cfg now lead isDup) true ws0 =
      .ok (ws1, base1, res1)) :
    afterExtract cfg eff now req ws0 lead =
      (.done
        (((if isDup then "dedupe" else "ok") != "error") &&
          (emailStatusOf eff isDup == "sent" || emailStatusOf eff isDup == "skipped"))
        (if isDup then "dedupe" else "ok")
        (if (((if isDup then "dedupe" else "ok") != "error") &&
            (emailStatusOf eff isDup == "sent" || emailStatusOf eff isDup == "skipped"))
         then "Fluxo concluido" else "Fluxo com problemas")
        req lead.wamid
        (secondUpsert cfg eff now
          (finalRecord cfg now existingTs base1 (emailStatusOf eff isDup)) ws1
          (rowChoose rowIdx0 res1.row)).2
        (emailStatusOf eff isDup)
        lead.name lead.phone lead.email (some (pyOrS lead.source "whatsapp")),
       ⟨[provisionalRecord cfg now lead isDup,
         finalRecord cfg now existingTs base1 (emailStatusOf eff isDup)], !isDup⟩,
       (secondUpsert cfg eff now
         (finalRecord cfg now existingTs base1 (emailStatusOf eff isDup)) ws1
         (rowChoose rowIdx0 res1.row)).1) := by
  have step1 : afterExtract cfg eff now req ws0 lead =
      afterUpsert1 cfg eff now req ws0 lead (isDup, rowIdx0, existingTs)
        (upsert_by_wamid cfg now (provisionalRecord cfg now lead isDup) true ws0) := by
    unfold afterExtract
    rw [hd, h1]
    simp only []
    rw [if_neg Bool.false_ne_true]
  rw [step1, hup]
  rfl

/-- Whatever the provisional upsert returns, the first record passed to the
store is the provisional one. -/
theorem afterUpsert1_head (cfg : Config) (eff : Effects) (now req : String)
    (ws0 : Worksheet) (lead : Lead) (d : Bool × Option Nat × Option String)
    (r : Except String (Worksheet × Record × UpsertRes)) :
    (afterUpsert1 cfg eff now req ws0 lead d r).2.1.upserts.head? =
      some (provisionalRecord cfg now lead d.1) := by
  cases r with
  | error e => rfl
  | ok t =>
    obtain ⟨w1, b1, r1⟩ := t
    rfl

/-- The only error result the post-dedupe stages can produce is the
store-write failure. -/
theorem afterUpsert1_err_kind (cfg : Config) (eff : Effects) (now req : String)
    (ws0 : Worksheet) (lead : Lead) (d : Bool × Option Nat × Option String)
    (r : Except String (Worksheet × Record × UpsertRes))
    (rq k : String) (dt : Option String)
    (h : (afterUpsert1 cfg eff now req ws0 lead d r).1 = .err rq k dt) :
    k = "sheets_upsert_failed" := by
  cases r with
  | error e =>
    have h1 : PipeResult.err req "sheets_upsert_failed" (some e) = .err rq k dt := h
    injection h1 with he1 he2 he3
    exact he2.symm
  | ok t =>
    obtain ⟨w1, b1, r1⟩ := t
    exact PipeResult.noConfusion h

/-- The last dict-literal assignment wins: the `updated_at` entry of the
merged record always carries the fallback chain
`existing_ts or base[ts] or now`. -/
theorem rget_finalRecord_updated_at (cfg : Config) (now : String)
    (existingTs : Option String) (base : Record) (es : String) :
    rget (finalRecord cfg now existingTs base es) (envv cfg.col_updated_at) =
      some (some (pyOrS existingTs (pyOrS (flatget base (envv cfg.col_timestamp)) now))) := by
  simp only [finalRecord]
  rw [show [
      (envv cfg.col_timestamp, some (pyOrS (flatget base (envv cfg.col_timestamp)) now)),
      (envv cfg.col_name, flatget base (envv cfg.col_name)),
      (envv cfg.col_phone, flatget base (envv cfg.col_phone)),
      (envv cfg.col_email, flatget base (envv cfg.col_email)),
      (envv cfg.col_message, flatget base (envv cfg.col_message)),
      (envv cfg.col_source, flatget base (envv cfg.col_source)),
      (envv cfg.col_wamid, flatget base (envv cfg.col_wamid)),
      (envv cfg.col_status_email, some es),
      (envv cfg.col_updated_at,
        some (pyOrS existingTs (pyOrS (flatget base (envv cfg.col_timestamp)) now)))] = [
      (envv cfg.col_timestamp, some (pyOrS (flatget base (envv cfg.col_timestamp)) now)),
      (envv cfg.col_name, flatget base (envv cfg.col_name)),
      (envv cfg.col_phone, flatget base (envv cfg.col_phone)),
      (envv cfg.col_email, flatget base (envv cfg.col_email)),
      (envv cfg.col_message, flatget base (envv cfg.col_message)),
      (envv cfg.col_source, flatget base (envv cfg.col_source)),
      (envv cfg.col_wamid, flatget base (envv cfg.col_wamid)),
      (envv cfg.col_status_email, some es)] ++ [
      (envv cfg.col_updated_at,
        some (pyOrS existingTs (pyOrS (flatget base (envv cfg.col_timestamp)) now)))]
    from rfl]
  rw [mkDict_append_single]
  exact rget_rset_self _ _ _

/-! ### Claim C5 -/

/-- **C5 (counterexample to the claim as stated).**  A duplicate whose
stored creation-timestamp cell is blank: the dedupe read captures `""`, but
Python `or` skips the falsy captured value, so the merged record's
`updated_at` is the current run time `"NOW"`, not the captured stored
timestamp — the pipeline does record a distinct real update time here. -/
theorem final_updated_at_counterexample :
    extract_from_webhook samplePayload = .ok sampleLead ∧
    dedupeStage {} {} sheetBlankTs sampleLead = (true, some 2, some "") ∧
    rget ((processIncoming {} {} "NOW" "R1" sheetBlankTs samplePayload).2.1.upserts.getD 1 [])
      "updated_at" = some (some "NOW") ∧
    some "NOW" ≠ (some "" : Option String) :=
  ⟨rfl, rfl, by decide, by decide⟩

/-- **C5 (amended).**  In every run that reaches the final upsert, the
merged record's `updated_at` is the Python `or` chain
`existing_ts or base[timestamp] or now`: the dedupe-captured timestamp when
that capture is truthy (in particular for a duplicate with a non-blank
stored timestamp), otherwise the mutated provisional record's timestamp
value or the current run time. -/
theorem final_updated_at_eq (cfg : Config) (eff : Effects) (now req : String)
    (ws0 : Worksheet) (p : Payload) (lead : Lead)
    (isDup : Bool) (rowIdx0 : Option Nat) (existingTs : Option String)
    (ws1 : Worksheet) (base1 : Record) (res1 : UpsertRes)
    (hex : extract_from_webhook p = .ok lead)
    (hv : (truthy lead.wamid || truthy lead.phone || truthy lead.name) = true)
    (hd : dedupeStage cfg eff ws0 lead = (isDup, rowIdx0, existingTs))
    (h1 : eff.upsert1Raises = false)
    (hup : upsert_by_wamid cfg now (provisionalRecord cfg now lead isDup) true ws0 =
      .ok (ws1, base1, res1)) :
    ∃ merged notified,
      (processIncoming cfg eff now req ws0 p).2.1 =
        ⟨[provisionalRecord cfg now lead isDup, merged], notified⟩ ∧
      rget merged (envv cfg.col_updated_at) =
        some (some (pyOrS existingTs (pyOrS (flatget base1 (envv cfg.col_timestamp)) now))) ∧
      (truthy existingTs = true →
        rget merged (envv cfg.col_updated_at) = some (some (existingTs.getD ""))) ∧
      (truthy existingTs = false →
        rget merged (envv cfg.col_updated_at) =
          some (some (pyOrS (flatget base1 (envv cfg.col_timestamp)) now))) := by
  refine ⟨finalRecord cfg now existingTs base1 (emailStatusOf eff isDup), !isDup,
    ?_, ?_, ?_, ?_⟩
  · rw [processIncoming_reached cfg eff now req ws0 p lead hex hv,
      afterExtract_ok cfg eff now req ws0 lead isDup rowIdx0 existingTs ws1 base1 res1
        hd h1 hup]
  · exact rget_finalRecord_updated_at cfg now existingTs base1 _
  · intro ht
    rw [rget_finalRecord_updated_at cfg now existingTs base1 _,
      pyOrS_truthy existingTs _ ht]
  · intro hf
    rw [rget_finalRecord_updated_at cfg now existingTs base1 _,
      pyOrS_falsy existingTs _ hf]

/-- **C5 (witness).**  The amended theorem applied to a concrete fresh-lead
run. -/
theorem final_updated_at_eq_witness :
    ∃ merged notified,
      (processIncoming {} {} "NOW" "R1" sheetHeaderOnly samplePayload).2.1 =
        ⟨[provisionalRecord {} "NOW" sampleLead false, merged], notified⟩ ∧
      rget merged (envv (Config.col_updated_at {})) =
        some (some (pyOrS none
          (pyOrS (flatget
            [("timestamp", some "NOW"), ("name", none), ("phone", none), ("email", none),
             ("message", none), ("source", some "whatsapp"), ("wamid", some "K1"),
             ("status_email", some "pending")] (envv (Config.col_timestamp {}))) "NOW"))) ∧
      (truthy none = true →
        rget merged (envv (Config.col_updated_at {})) =
          some (some (Option.getD none ""))) ∧
      (truthy none = false →
        rget merged (envv (Config.col_updated_at {})) =
          some (some (pyOrS (flatget
            [("timestamp", some "NOW"), ("name", none), ("phone", none), ("email", none),
             ("message", none), ("source", some "whatsapp"), ("wamid", some "K1"),
             ("status_email", some "pending")] (envv (Config.col_timestamp {}))) "NOW"))) :=
  final_updated_at_eq {} {} "NOW" "R1" sheetHeaderOnly samplePayload sampleLead
    false none none
    ⟨[["timestamp", "wamid", "updated_at"], ["NOW", "K1", ""]]⟩
    [("timestamp", some "NOW"), ("name", none), ("phone", none), ("email", none),
     ("message", none), ("source", some "whatsapp"), ("wamid", some "K1"),
     ("status_email", some "pending")]
    ⟨2, true⟩
    rfl rfl rfl rfl rfl

/-! ### Claim C6 -/

/-- **C6.**  Dedupe skip: when deduplication is enabled, the lead carries a
truthy key, the dedupe lookup succeeds and finds an existing row, and the
provisional upsert succeeds, the run never invokes the notifier and reports
`email_status = "skipped"`, `status = "dedupe"` (with `ok = true`). -/
theorem dedupe_skips_notifier (cfg : Config) (eff : Effects) (now req : String)
    (ws0 : Worksheet) (p : Payload) (lead : Lead) (r : Nat)
    (ws1 : Worksheet) (base1 : Record) (res1 : UpsertRes)
    (hex : extract_from_webhook p = .ok lead)
    (hv : (truthy lead.wamid || truthy lead.phone || truthy lead.name) = true)
    (hflag : flagv cfg.dedupe_by_wamid = true)
    (hw : truthy lead.wamid = true)
    (hopen : eff.dedupeOpenFails = false)
    (hfind : find_row_by_wamid_pipe cfg ws0 (lead.wamid.getD "") = some r)
    (h1 : eff.upsert1Raises = false)
    (hup : upsert_by_wamid cfg now (provisionalRecord cfg now lead true) true ws0 =
      .ok (ws1, base1, res1)) :
    (processIncoming cfg eff now req ws0 p).2.1.notified = false ∧
    ∃ row, (processIncoming cfg eff now req ws0 p).1 =
      .done true "dedupe" "Fluxo concluido" req lead.wamid row "skipped"
        lead.name lead.phone lead.email (some (pyOrS lead.source "whatsapp")) := by
  have hd : ∃ exTs, dedupeStage cfg eff ws0 lead = (true, some r, exTs) := by
    unfold dedupeStage
    simp only [hflag, hw, Bool.and_self, if_true, hopen, Bool.false_eq_true, if_false, hfind]
    exact ⟨_, rfl⟩
  obtain ⟨exTs, hd⟩ := hd
  have h := (processIncoming_reached cfg eff now req ws0 p lead hex hv).trans
    (afterExtract_ok cfg eff now req ws0 lead true (some r) exTs ws1 base1 res1 hd h1 hup)
  constructor
  · rw [h]
    rfl
  · refine ⟨(secondUpsert cfg eff now (finalRecord cfg now exTs base1 (emailStatusOf eff true))
      ws1 (rowChoose (some r) res1.row)).2, ?_⟩
    rw [h]
    rfl

/-- **C6 (witness).**  The dedupe-skip theorem applied to a concrete
duplicate run. -/
theorem dedupe_skips_notifier_witness :
    (processIncoming {} {} "NOW" "R1" sheetWithLead samplePayload).2.1.notified = false ∧
    ∃ row, (processIncoming {} {} "NOW" "R1" sheetWithLead samplePayload).1 =
      .done true "dedupe" "Fluxo concluido" "R1" sampleLead.wamid row "skipped"
        sampleLead.name sampleLead.phone sampleLead.email
        (some (pyOrS sampleLead.source "whatsapp")) :=
  dedupe_skips_notifier {} {} "NOW" "R1" sheetWithLead samplePayload sampleLead 2
    ⟨[["timestamp", "wamid", "updated_at"], ["T1", "K1", "NOW"]]⟩
    [("timestamp", some "T1"), ("name", none), ("phone", none), ("email", none),
     ("message", none), ("source", some "whatsapp"), ("wamid", some "K1"),
     ("status_email", some "skipped"), ("updated_at", some "NOW")]
    ⟨2, false⟩
    rfl rfl rfl rfl rfl rfl rfl rfl

/-! ### Claim C7 -/

/-- **C7.**  Notifier failures never abort the pipeline: on a non-duplicate
run whose provisional upsert succeeds, a notifier that raises or returns
`False` is mapped to `email_status = "error"`, the final upsert is still
attempted with the merged record, and the run returns a normal structured
result (`status = "ok"`), not a pipeline failure. -/
theorem notifier_failure_never_aborts (cfg : Config) (eff : Effects) (now req : String)
    (ws0 : Worksheet) (p : Payload) (lead : Lead)
    (ws1 : Worksheet) (base1 : Record) (res1 : UpsertRes)
    (hex : extract_from_webhook p = .ok lead)
    (hv : (truthy lead.wamid || truthy lead.phone || truthy lead.name) = true)
    (hd : dedupeStage cfg eff ws0 lead = (false, none, none))
    (h1 : eff.upsert1Raises = false)
    (hup : upsert_by_wamid cfg now (provisionalRecord cfg now lead false) true ws0 =
      .ok (ws1, base1, res1))
    (hnot : notifyStatus eff.notify = "error") :
    (processIncoming cfg eff now req ws0 p).2.1 =
      ⟨[provisionalRecord cfg now lead false,
        finalRecord cfg now none base1 "error"], true⟩ ∧
    ∃ row, (processIncoming cfg eff now req ws0 p).1 =
      .done false "ok" "Fluxo com problemas" req lead.wamid row "error"
        lead.name lead.phone lead.email (some (pyOrS lead.source "whatsapp")) := by
  have hes : emailStatusOf eff false = "error" := hnot
  have h := (processIncoming_reached cfg eff now req ws0 p lead hex hv).trans
    (afterExtract_ok cfg eff now req ws0 lead false none none ws1 base1 res1 hd h1 hup)
  rw [hes] at h
  constructor
  · rw [h]
    rfl
  · refine ⟨(secondUpsert cfg eff now (finalRecord cfg now none base1 "error")
      ws1 (rowChoose none res1.row)).2, ?_⟩
    rw [h]
    rfl

/-- **C7 (witness).**  The theorem applied to a fresh lead whose notifier
raises. -/
theorem notifier_failure_never_aborts_witness :
    (processIncoming {} ({ notify := .raised } : Effects) "NOW" "R1"
        sheetHeaderOnly samplePayload).2.1 =
      ⟨[provisionalRecord {} "NOW" sampleLead false,
        finalRecord {} "NOW" none
          [("timestamp", some "NOW"), ("name", none), ("phone", none), ("email", none),
           ("message", none), ("source", some "whatsapp"), ("wamid", some "K1"),
           ("status_email", some "pending")] "error"], true⟩ ∧
    ∃ row, (processIncoming {} ({ notify := .raised } : Effects) "NOW" "R1"
        sheetHeaderOnly samplePayload).1 =
      .done false "ok" "Fluxo com problemas" "R1" sampleLead.wamid row "error"
        sampleLead.name sampleLead.phone sampleLead.email
        (some (pyOrS sampleLead.source "whatsapp")) :=
  notifier_failure_never_aborts {} ({ notify := .raised } : Effects) "NOW" "R1"
    sheetHeaderOnly samplePayload sampleLead
    ⟨[["timestamp", "wamid", "updated_at"], ["NOW", "K1", ""]]⟩
    [("timestamp", some "NOW"), ("name", none), ("phone", none), ("email", none),
     ("message", none), ("source", some "whatsapp"), ("wamid", some "K1"),
     ("status_email", some "pending")]
    ⟨2, true⟩
    rfl rfl rfl rfl rfl rfl

/-! ### Claim C8 -/

/-- **C8.**  A dedupe lookup failure (store unreachable while the dedupe
check opens the sheet) is swallowed: the event is treated as not a
duplicate, the provisional upsert is still attempted with the non-duplicate
record, and the only error result such a run can still produce is a
store-write failure — never a dedupe error. -/
theorem dedupe_lookup_failure_swallowed (cfg : Config) (eff : Effects) (now req : String)
    (ws0 : Worksheet) (p : Payload) (lead : Lead)
    (hex : extract_from_webhook p = .ok lead)
    (hv : (truthy lead.wamid || truthy lead.phone || truthy lead.name) = true)
    (hflag : flagv cfg.dedupe_by_wamid = true)
    (hw : truthy lead.wamid = true)
    (hfail : eff.dedupeOpenFails = true) :
    dedupeStage cfg eff ws0 lead = (false, none, none) ∧
    (processIncoming cfg eff now req ws0 p).2.1.upserts.head? =
      some (provisionalRecord cfg now lead false) ∧
    (∀ rq k dt, (processIncoming cfg eff now req ws0 p).1 = .err rq k dt →
      k = "sheets_upsert_failed") := by
  have hd : dedupeStage cfg eff ws0 lead = (false, none, none) := by
    unfold dedupeStage
    simp only [hflag, hw, Bool.and_self, if_true, hfail]
  have hrun := processIncoming_reached cfg eff now req ws0 p lead hex hv
  have hstep : afterExtract cfg eff now req ws0 lead =
      (if eff.upsert1Raises then
        (.err req "sheets_upsert_failed" (some "store unavailable"),
         ⟨[provisionalRecord cfg now lead false], false⟩, ws0)
      else afterUpsert1 cfg eff now req ws0 lead (false, none, none)
        (upsert_by_wamid cfg now (provisionalRecord cfg now lead false) true ws0)) := by
    unfold afterExtract
    rw [hd]
  refine ⟨hd, ?_, ?_⟩
  · rcases Bool.eq_false_or_eq_true eff.upsert1Raises with hb | hb
    · rw [hrun, hstep, hb, if_pos rfl]
      rfl
    · rw [hrun, hstep, hb, if_neg Bool.false_ne_true]
      exact afterUpsert1_head cfg eff now req ws0 lead (false, none, none) _
  · intro rq k dt hh
    rw [hrun, hstep] at hh
    rcases Bool.eq_false_or_eq_true eff.upsert1Raises with hb | hb
    · rw [hb, if_pos rfl] at hh
      injection hh with he1 he2 he3
      exact he2.symm
    · rw [hb, if_neg Bool.false_ne_true] at hh
      exact afterUpsert1_err_kind cfg eff now req ws0 lead (false, none, none) _ rq k dt hh

/-- **C8 (witness).**  The theorem applied to a run whose dedupe open
raises. -/
theorem dedupe_lookup_failure_swallowed_witness :
    dedupeStage {} ({ dedupeOpenFails := true } : Effects) sheetWithLead sampleLead =
      (false, none, none) ∧
    (processIncoming {} ({ dedupeOpenFails := true } : Effects) "NOW" "R1"
        sheetWithLead samplePayload).2.1.upserts.head? =
      some (provisionalRecord {} "NOW" sampleLead false) ∧
    (∀ rq k dt, (processIncoming {} ({ dedupeOpenFails := true } : Effects) "NOW" "R1"
        sheetWithLead samplePayload).1 = .err rq k dt →
      k = "sheets_upsert_failed") :=
  dedupe_lookup_failure_swallowed {} ({ dedupeOpenFails := true } : Effects) "NOW" "R1"
    sheetWithLead samplePayload sampleLead rfl rfl rfl rfl rfl

/-! ### Claim C9 -/

/-- **C9.**  Invalid-payload rejection without store writes: when the
extracted lead has falsy key, phone and name, the run returns the
`invalid_payload` error, performs no upsert (the upsert trace is empty, the
notifier is not invoked) and leaves the worksheet untouched. -/
theorem invalid_payload_no_store_write (cfg : Config) (eff : Effects) (now req : String)
    (ws0 : Worksheet) (p : Payload) (lead : Lead)
    (hex : extract_from_webhook p = .ok lead)
    (hw : truthy lead.wamid = false)
    (hp : truthy lead.phone = false)
    (hn : truthy lead.name = false) :
    processIncoming cfg eff now req ws0 p =
      (.err req "invalid_payload" none, ⟨[], false⟩, ws0) := by
  unfold processIncoming
  rw [hex]
  show (if truthy lead.wamid || truthy lead.phone || truthy lead.name then
      afterExtract cfg eff now req ws0 lead
    else (.err req "invalid_payload" none, ⟨[], false⟩, ws0)) =
    (.err req "invalid_payload" none, ⟨[], false⟩, ws0)
  rw [hw, hp, hn]
  rw [if_neg (show ¬((false || false || false) = true) from fun hc => Bool.false_ne_true hc)]

/-- **C9 (witness).**  The theorem applied to an empty webhook payload. -/
theorem invalid_payload_no_store_write_witness :
    processIncoming {} {} "NOW" "R1" sheetWithLead ({} : Payload) =
      (.err "R1" "invalid_payload" none, ⟨[], false⟩, sheetWithLead) :=
  invalid_payload_no_store_write {} {} "NOW" "R1" sheetWithLead ({} : Payload)
    { wamid := none, name := none, phone := none, email := none,
      message := none, source := some "whatsapp" }
    rfl rfl rfl rfl

/-! ### Claim C10 -/

/-- **C10.**  Implicit ok-flag semantics: every run that reaches the
notification step (extraction and validation pass, the provisional upsert
succeeds) returns a structured result whose `ok` field is exactly
`email_status ∈ {"sent", "skipped"}`, with `status` either `"dedupe"` or
`"ok"` — independent of the final upsert's outcome; in particular a
non-duplicate whose notifier fails gets `status = "ok"` with `ok = false`. -/
theorem ok_flag_iff_email_status (cfg : Config) (eff : Effects) (now req : String)
    (ws0 : Worksheet) (p : Payload) (lead : Lead)
    (isDup : Bool) (rowIdx0 : Option Nat) (existingTs : Option String)
    (ws1 : Worksheet) (base1 : Record) (res1 : UpsertRes)
    (hex : extract_from_webhook p = .ok lead)
    (hv : (truthy lead.wamid || truthy lead.phone || truthy lead.name) = true)
    (hd : dedupeStage cfg eff ws0 lead = (isDup, rowIdx0, existingTs))
    (h1 : eff.upsert1Raises = false)
    (hup : upsert_by_wamid cfg now (provisionalRecord cfg now lead isDup) true ws0 =
      .ok (ws1, base1, res1)) :
    ∃ status detail row es,
      (processIncoming cfg eff now req ws0 p).1 =
        .done ((es == "sent") || (es == "skipped")) status detail req lead.wamid row es
          lead.name lead.phone lead.email (some (pyOrS lead.source "whatsapp")) ∧
      (status = "dedupe" ∨ status = "ok") ∧
      (es = "sent" ∨ es = "skipped" ∨ es = "error") := by
  have h := (processIncoming_reached cfg eff now req ws0 p lead hex hv).trans
    (afterExtract_ok cfg eff now req ws0 lead isDup rowIdx0 existingTs ws1 base1 res1
      hd h1 hup)
  cases isDup with
  | false =>
    refine ⟨"ok",
      (if ((emailStatusOf eff false == "sent") || (emailStatusOf eff false == "skipped")) = true
        then "Fluxo concluido" else "Fluxo com problemas"),
      (secondUpsert cfg eff now (finalRecord cfg now existingTs base1 (emailStatusOf eff false))
        ws1 (rowChoose rowIdx0 res1.row)).2,
      notifyStatus eff.notify, ?_, Or.inr rfl, ?_⟩
    · rw [h]
      rfl
    · cases hn : eff.notify with
      | sentOk => exact Or.inl rfl
      | sentFalse => exact Or.inr (Or.inr rfl)
      | raised => exact Or.inr (Or.inr rfl)
  | true =>
    refine ⟨"dedupe", "Fluxo concluido",
      (secondUpsert cfg eff now (finalRecord cfg now existingTs base1 (emailStatusOf eff true))
        ws1 (rowChoose rowIdx0 res1.row)).2,
      "skipped", ?_, Or.inl rfl, Or.inr (Or.inl rfl)⟩
    rw [h]
    rfl

/-- **C10 (witness).**  The theorem applied to a fresh lead whose email is
sent. -/
theorem ok_flag_iff_email_status_witness :
    ∃ status detail row es,
      (processIncoming {} {} "NOW" "R1" sheetHeaderOnly samplePayload).1 =
        .done ((es == "sent") || (es == "skipped")) status detail "R1" sampleLead.wamid
          row es sampleLead.name sampleLead.phone sampleLead.email
          (some (pyOrS sampleLead.source "whatsapp")) ∧
      (status = "dedupe" ∨ status = "ok") ∧
      (es = "sent" ∨ es = "skipped" ∨ es = "error") :=
  ok_flag_iff_email_status {} {} "NOW" "R1" sheetHeaderOnly samplePayload sampleLead
    false none none
    ⟨[["timestamp", "wamid", "updated_at"], ["NOW", "K1", ""]]⟩
    [("timestamp", some "NOW"), ("name", none), ("phone", none), ("email", none),
     ("message", none), ("source", some "whatsapp"), ("wamid", some "K1"),
     ("status_email", some "pending")]
    ⟨2, true⟩
    rfl rfl rfl rfl rfl

end Bot